import Mathlib

/-!
Verification of the steganographic encoder core
(`src/encoder/core/steganographer.py`, `src/encoder/core/marker_generator.py`,
`src/encoder/core/subtitle_parser.py`).

A video frame is modelled as a function `ℕ → ℕ → ℕ → ℕ` sending
`(row, column, channel)` to the `uint8` channel value, together with explicit
height/width arguments.  Machine integers are plain naturals with explicit
`% 256` / `% 2 ^ 32` arithmetic where the Python code relies on fixed widths.
The library call `zlib.crc32` is modelled by the standard CRC-32
(reflected polynomial `0xEDB88320`, initial value and final xor
`0xFFFFFFFF`), which is exactly what `zlib` computes.
-/

/-- The frame is a well-formed `uint8` array: every channel value fits a byte. -/
def FrameWF (f : ℕ → ℕ → ℕ → ℕ) : Prop := ∀ y x c, f y x c ≤ 255

/-- Write bit `b` into position `p` of `v` (clear-and-set).  Models the Python
`(int(v) & ~(1 << p)) | (b << p)` in `_embed_data_in_region`. -/
def writeBit (v p b : ℕ) : ℕ := 2 ^ (p + 1) * (v / 2 ^ (p + 1)) + 2 ^ p * b + v % 2 ^ p

/-- LSB-first bit expansion of a byte string: `for byte in data: for i in
range(8): data_bits.append((byte >> i) & 1)` (steganographer.py:159-162). -/
def dataBits (data : List ℕ) : List ℕ :=
  data.flatMap (fun b => (List.range 8).map (fun i => (b >>> i) &&& 1))

/-- Index of the first of the two LSB slots that pixel `(y, x)`, channel `c`
occupies in the bit stream (row-major pixels, channel-major within a pixel,
2 bits per channel). -/
def bitIndex (w y x c : ℕ) : ℕ := ((y * w + x) * 3 + c) * 2

/-- New value of one channel after `_embed_data_in_region` has run: bit
positions `0` and `1` receive the stream bits at `bitIndex` and `bitIndex + 1`
when those indices are below the stream length (the Python loop returns as
soon as `bit_idx >= len(data_bits)`).  The `min 255` mirrors
`max(0, min(255, new_val))`; `max 0` is a no-op on naturals. -/
def embedChannelVal (bits : List ℕ) (w y x c v : ℕ) : ℕ :=
  if bitIndex w y x c + 1 < bits.length then
    min 255 (writeBit
      (if bitIndex w y x c < bits.length then
        min 255 (writeBit v 0 (bits.getD (bitIndex w y x c) 0)) else v)
      1 (bits.getD (bitIndex w y x c + 1) 0))
  else if bitIndex w y x c < bits.length then
    min 255 (writeBit v 0 (bits.getD (bitIndex w y x c) 0))
  else v

/-- `SteganographicEmbedder._embed_data_in_region` on the 3-channel region of
`hr` rows starting at row `y0` (the Python `region` argument is a NumPy view,
so writes land in the frame itself).  Capacity is
`pixels * (LSB_DEPTH * channels) // 8` bytes; if the payload is larger the
method logs an error and returns without touching a pixel. -/
def embedDataInRegion (y0 hr w : ℕ) (data : List ℕ) (f : ℕ → ℕ → ℕ → ℕ) :
    ℕ → ℕ → ℕ → ℕ :=
  if hr * w = 0 ∨ data.length = 0 ∨ hr * w * (2 * 3) / 8 < data.length then f
  else fun y x c =>
    if y0 ≤ y ∧ y < y0 + hr ∧ x < w ∧ c < 3 then
      embedChannelVal (dataBits data) w (y - y0) x c (f y x c)
    else f y x c

/-- One bit read back by `SteganographicExtractor._extract_data_from_region`:
the `i`-th bit of the stream lives at pixel `i / 6` (row-major), channel
`(i % 6) / 2`, bit position `i % 2`, and is `(value >> bit_pos) & 1`. -/
def extractedBit (f : ℕ → ℕ → ℕ → ℕ) (y0 w i : ℕ) : ℕ :=
  (f (y0 + i / (w * 6)) (i / 6 % w) (i % 6 / 2) >>> (i % 2)) &&& 1

/-- Reassemble one byte from eight stream bits, least significant first
(steganographer.py:439-444). -/
def byteFromBits (g : ℕ → ℕ) (j : ℕ) : ℕ :=
  g (8 * j) + 2 * g (8 * j + 1) + 4 * g (8 * j + 2) + 8 * g (8 * j + 3) +
    16 * g (8 * j + 4) + 32 * g (8 * j + 5) + 64 * g (8 * j + 6) + 128 * g (8 * j + 7)

/-- `SteganographicExtractor._extract_data_from_region`: reads
`min(num_bytes * 8, capacity_bits)` bits in embedding order and keeps only the
complete bytes. -/
def extractDataFromRegion (y0 hr w numBytes : ℕ) (f : ℕ → ℕ → ℕ → ℕ) : List ℕ :=
  if hr * w = 0 then []
  else (List.range (min (numBytes * 8) (hr * w * (2 * 3)) / 8)).map
    (byteFromBits (extractedBit f y0 w))

/- ### Arithmetic facts about single bits -/

theorem shiftRight_and_one (v p : ℕ) : (v >>> p) &&& 1 = v / 2 ^ p % 2 := by
  rw [Nat.shiftRight_eq_div_pow, Nat.and_one_is_mod]

theorem bit_le_one (v p : ℕ) : (v >>> p) &&& 1 ≤ 1 := by
  rw [shiftRight_and_one]; omega

theorem writeBit_zero (v b : ℕ) : writeBit v 0 b = 2 * (v / 2) + b := by
  simp [writeBit, Nat.mod_one]

theorem writeBit_one (v b : ℕ) : writeBit v 1 b = 4 * (v / 4) + 2 * b + v % 2 := by
  have h2 : (2 : ℕ) ^ 2 = 4 := by norm_num
  simp [writeBit, h2]

theorem writeBit_zero_le (v b : ℕ) (hv : v ≤ 255) (hb : b ≤ 1) :
    writeBit v 0 b ≤ 255 := by
  rw [writeBit_zero]; omega

theorem writeBit_one_le (v b : ℕ) (hv : v ≤ 255) (hb : b ≤ 1) :
    writeBit v 1 b ≤ 255 := by
  rw [writeBit_one]; omega

theorem writeBit_zero_bit0 (v b : ℕ) (hb : b ≤ 1) : writeBit v 0 b % 2 = b := by
  rw [writeBit_zero]; omega

theorem writeBit_zero_high (v b : ℕ) (hb : b ≤ 1) : writeBit v 0 b / 2 = v / 2 := by
  rw [writeBit_zero]; omega

theorem writeBit_one_bit0 (v b : ℕ) : writeBit v 1 b % 2 = v % 2 := by
  rw [writeBit_one]; omega

theorem writeBit_one_bit1 (v b : ℕ) (hb : b ≤ 1) : writeBit v 1 b / 2 % 2 = b := by
  rw [writeBit_one]; omega

theorem writeBit_one_high (v b : ℕ) (hb : b ≤ 1) : writeBit v 1 b / 4 = v / 4 := by
  rw [writeBit_one]; omega

theorem writeBit_zero_high4 (v b : ℕ) (hb : b ≤ 1) : writeBit v 0 b / 4 = v / 4 := by
  rw [writeBit_zero]; omega

/- ### The bit stream of a byte string -/

theorem dataBits_length (d : List ℕ) : (dataBits d).length = 8 * d.length := by
  induction d with
  | nil => simp [dataBits]
  | cons b rest ih =>
    simp only [dataBits, List.flatMap_cons, List.length_append, List.length_map,
      List.length_range]
    rw [show rest.flatMap (fun b => (List.range 8).map (fun i => (b >>> i) &&& 1)) =
      dataBits rest from rfl, ih]
    simp [List.length_cons]; omega

theorem dataBits_getD (d : List ℕ) (i : ℕ) (hi : i < 8 * d.length) :
    (dataBits d).getD i 0 = (d.getD (i / 8) 0 >>> (i % 8)) &&& 1 := by
  induction d generalizing i with
  | nil => simp at hi
  | cons b rest ih =>
    simp only [dataBits, List.flatMap_cons]
    rcases Nat.lt_or_ge i 8 with h8 | h8
    · rw [List.getD_eq_getElem?_getD, List.getElem?_append_left (by simpa using h8),
        List.getElem?_map, List.getElem?_range h8]
      have : i / 8 = 0 := by omega
      have h2 : i % 8 = i := by omega
      simp [this, h2]
    · rw [List.getD_eq_getElem?_getD, List.getElem?_append_right (by simpa using h8)]
      have hlen : ((List.range 8).map (fun i => (b >>> i) &&& 1)).length = 8 := by simp
      rw [hlen]
      have hlt : i - 8 < 8 * rest.length := by simp at hi; omega
      have := ih (i - 8) hlt
      rw [List.getD_eq_getElem?_getD] at this
      rw [show (dataBits rest) = rest.flatMap (fun b => (List.range 8).map (fun i => (b >>> i) &&& 1)) from rfl] at this
      rw [this]
      have hd : i / 8 = (i - 8) / 8 + 1 := by omega
      have hm : (i - 8) % 8 = i % 8 := by omega
      rw [hd, List.getD_cons_succ, hm]

theorem dataBits_le_one (d : List ℕ) (i : ℕ) : (dataBits d).getD i 0 ≤ 1 := by
  rcases Nat.lt_or_ge i (dataBits d).length with h | h
  · rw [dataBits_length] at h
    rw [dataBits_getD d i h]; exact bit_le_one _ _
  · rw [List.getD_eq_getElem?_getD, List.getElem?_eq_none (by omega)]; simp

/- ### Coordinate algebra: bit index `i` lives at row `i / (w*6)`,
column `i / 6 % w`, channel `i % 6 / 2`, bit position `i % 2`. -/

theorem coords_base (w i : ℕ) (hw : 0 < w) :
    bitIndex w (i / (w * 6)) (i / 6 % w) (i % 6 / 2) = i - i % 2 := by
  unfold bitIndex
  have h6 : i / (w * 6) = i / 6 / w := by
    rw [Nat.div_div_eq_div_mul, Nat.mul_comm]
  rw [h6]
  have hq : i / 6 / w * w + i / 6 % w = i / 6 := Nat.div_add_mod' (i / 6) w
  rw [hq]
  have h1 : 6 * (i / 6) + i % 6 = i := Nat.div_add_mod i 6
  have h2 : 2 * (i % 6 / 2) + i % 6 % 2 = i % 6 := Nat.div_add_mod (i % 6) 2
  have h3 : i % 6 % 2 = i % 2 := Nat.mod_mod_of_dvd i (by norm_num)
  omega

theorem coords_row_lt (w hr i : ℕ) (hw : 0 < w) (hi : i < hr * w * 6) :
    i / (w * 6) < hr := by
  have : i < hr * (w * 6) := by
    have : hr * w * 6 = hr * (w * 6) := by ring
    omega
  exact (Nat.div_lt_iff_lt_mul (by positivity)).mpr (by omega)

theorem coords_chan_lt (i : ℕ) : i % 6 / 2 < 3 := by omega

/-- Distinct bit indices with the same channel index share coordinates, and
conversely: the extraction coordinates of `i` are determined by `i / 2`. -/
theorem coords_eq_iff (w i j : ℕ) (hw : 0 < w) :
    (j / (w * 6) = i / (w * 6) ∧ j / 6 % w = i / 6 % w ∧ j % 6 / 2 = i % 6 / 2) ↔
      j / 2 = i / 2 := by
  have hwy : ∀ k : ℕ, k / (w * 6) = k / 6 / w := by
    intro k; rw [Nat.div_div_eq_div_mul, Nat.mul_comm]
  have key : ∀ k : ℕ, k / 2 = 3 * (k / 6) + k % 6 / 2 := by intro k; omega
  constructor
  · rintro ⟨h1, h2, h3⟩
    rw [hwy j, hwy i] at h1
    have hj := Nat.div_add_mod (j / 6) w
    have hi2 := Nat.div_add_mod (i / 6) w
    have hq : j / 6 = i / 6 := by
      rw [← hj, ← hi2, h1, h2]
    omega
  · intro h
    have hq : j / 6 = i / 6 := by omega
    have hc : j % 6 / 2 = i % 6 / 2 := by omega
    exact ⟨by rw [hwy j, hwy i, hq], by rw [hq], hc⟩

/- ### Value of one embedded channel -/

theorem embedChannelVal_le (bits : List ℕ) (w y x c v : ℕ) (hv : v ≤ 255)
    (hb : ∀ i, bits.getD i 0 ≤ 1) : embedChannelVal bits w y x c v ≤ 255 := by
  unfold embedChannelVal
  by_cases h1 : bitIndex w y x c + 1 < bits.length
  · rw [if_pos h1]; exact Nat.min_le_left _ _
  · rw [if_neg h1]
    by_cases h2 : bitIndex w y x c < bits.length
    · rw [if_pos h2]; exact Nat.min_le_left _ _
    · rw [if_neg h2]; exact hv

theorem embedChannelVal_high (bits : List ℕ) (w y x c v : ℕ) (hv : v ≤ 255)
    (hb : ∀ i, bits.getD i 0 ≤ 1) : embedChannelVal bits w y x c v / 4 = v / 4 := by
  unfold embedChannelVal
  by_cases h1 : bitIndex w y x c + 1 < bits.length
  · rw [if_pos h1, if_pos (by omega : bitIndex w y x c < bits.length)]
    have hv1 : min 255 (writeBit v 0 (bits.getD (bitIndex w y x c) 0)) ≤ 255 :=
      Nat.min_le_left _ _
    rw [Nat.min_eq_right (writeBit_one_le _ _ hv1 (hb _)), writeBit_one_high _ _ (hb _),
      Nat.min_eq_right (writeBit_zero_le v _ hv (hb _)), writeBit_zero_high4 v _ (hb _)]
  · rw [if_neg h1]
    by_cases h2 : bitIndex w y x c < bits.length
    · rw [if_pos h2, Nat.min_eq_right (writeBit_zero_le v _ hv (hb _)),
        writeBit_zero_high4 v _ (hb _)]
    · rw [if_neg h2]

theorem embedChannelVal_untouched (bits : List ℕ) (w y x c v : ℕ)
    (h : bits.length ≤ bitIndex w y x c) : embedChannelVal bits w y x c v = v := by
  unfold embedChannelVal
  rw [if_neg (by omega), if_neg (by omega)]

theorem embedChannelVal_bit0 (bits : List ℕ) (w y x c v : ℕ) (hv : v ≤ 255)
    (hb : ∀ i, bits.getD i 0 ≤ 1) (h : bitIndex w y x c < bits.length) :
    embedChannelVal bits w y x c v % 2 = bits.getD (bitIndex w y x c) 0 := by
  unfold embedChannelVal
  by_cases h1 : bitIndex w y x c + 1 < bits.length
  · rw [if_pos h1, if_pos h]
    have hv1 : min 255 (writeBit v 0 (bits.getD (bitIndex w y x c) 0)) ≤ 255 :=
      Nat.min_le_left _ _
    rw [Nat.min_eq_right (writeBit_one_le _ _ hv1 (hb _)), writeBit_one_bit0,
      Nat.min_eq_right (writeBit_zero_le v _ hv (hb _)), writeBit_zero_bit0 v _ (hb _)]
  · rw [if_neg h1, if_pos h, Nat.min_eq_right (writeBit_zero_le v _ hv (hb _)),
      writeBit_zero_bit0 v _ (hb _)]

theorem embedChannelVal_bit1 (bits : List ℕ) (w y x c v : ℕ) (hv : v ≤ 255)
    (hb : ∀ i, bits.getD i 0 ≤ 1) (h : bitIndex w y x c + 1 < bits.length) :
    embedChannelVal bits w y x c v / 2 % 2 = bits.getD (bitIndex w y x c + 1) 0 := by
  unfold embedChannelVal
  rw [if_pos h, if_pos (by omega : bitIndex w y x c < bits.length)]
  have hv1 : min 255 (writeBit v 0 (bits.getD (bitIndex w y x c) 0)) ≤ 255 :=
    Nat.min_le_left _ _
  rw [Nat.min_eq_right (writeBit_one_le _ _ hv1 (hb _))]
  exact writeBit_one_bit1 _ _ (hb _)

/- ### Round trip of `_embed_data_in_region` / `_extract_data_from_region` -/

theorem embed_extract_bit (y0 hr w : ℕ) (data : List ℕ) (f : ℕ → ℕ → ℕ → ℕ)
    (hWF : FrameWF f) (hpos : 0 < data.length)
    (hcap : data.length ≤ hr * w * (2 * 3) / 8) (i : ℕ) (hi : i < 8 * data.length) :
    extractedBit (embedDataInRegion y0 hr w data f) y0 w i = (dataBits data).getD i 0 := by
  have hbits : data.length * 8 ≤ hr * w * (2 * 3) :=
    (Nat.le_div_iff_mul_le (by norm_num)).mp hcap
  have h66 : hr * w * (2 * 3) = hr * w * 6 := rfl
  have hA : 0 < hr * w := by
    rcases Nat.eq_zero_or_pos (hr * w) with h0 | h
    · rw [h0] at hbits; simp at hbits; omega
    · exact h
  have hw : 0 < w := by
    rcases Nat.eq_zero_or_pos w with h0 | h
    · rw [h0, Nat.mul_zero] at hA; omega
    · exact h
  have hrow : i / (w * 6) < hr := coords_row_lt w hr i hw (by omega)
  unfold embedDataInRegion
  rw [if_neg (by push_neg; exact ⟨Nat.pos_iff_ne_zero.mp hA, by omega, by omega⟩)]
  simp only [extractedBit]
  rw [if_pos ⟨Nat.le_add_right _ _, by omega, Nat.mod_lt _ hw, coords_chan_lt i⟩,
    Nat.add_sub_cancel_left]
  have hblen : (dataBits data).length = 8 * data.length := dataBits_length data
  rcases Nat.mod_two_eq_zero_or_one i with hp | hp
  · have hbi : bitIndex w (i / (w * 6)) (i / 6 % w) (i % 6 / 2) = i := by
      rw [coords_base w i hw]; omega
    have h0 := embedChannelVal_bit0 (dataBits data) w (i / (w * 6)) (i / 6 % w)
      (i % 6 / 2) (f (y0 + i / (w * 6)) (i / 6 % w) (i % 6 / 2)) (hWF _ _ _)
      (dataBits_le_one data) (by rw [hblen, hbi]; omega)
    rw [hbi] at h0
    rw [shiftRight_and_one, hp, pow_zero, Nat.div_one]
    exact h0
  · have hbi : bitIndex w (i / (w * 6)) (i / 6 % w) (i % 6 / 2) + 1 = i := by
      rw [coords_base w i hw]; omega
    have h1 := embedChannelVal_bit1 (dataBits data) w (i / (w * 6)) (i / 6 % w)
      (i % 6 / 2) (f (y0 + i / (w * 6)) (i / 6 % w) (i % 6 / 2)) (hWF _ _ _)
      (dataBits_le_one data) (by rw [hblen, hbi]; omega)
    rw [hbi] at h1
    rw [shiftRight_and_one, hp, pow_one]
    exact h1

theorem extract_embedded (y0 hr w : ℕ) (data : List ℕ) (f : ℕ → ℕ → ℕ → ℕ)
    (hWF : FrameWF f) (hbytes : ∀ j, data.getD j 0 ≤ 255) (hpos : 0 < data.length)
    (hcap : data.length ≤ hr * w * (2 * 3) / 8) :
    extractDataFromRegion y0 hr w data.length (embedDataInRegion y0 hr w data f) = data := by
  have hbits : data.length * 8 ≤ hr * w * (2 * 3) :=
    (Nat.le_div_iff_mul_le (by norm_num)).mp hcap
  have hA : 0 < hr * w := by
    rcases Nat.eq_zero_or_pos (hr * w) with h0 | h
    · rw [h0] at hbits; simp at hbits; omega
    · exact h
  unfold extractDataFromRegion
  rw [if_neg (by omega)]
  rw [Nat.min_eq_left hbits, Nat.mul_div_cancel data.length (by norm_num)]
  have eeb : ∀ k, k < 8 * data.length →
      extractedBit (embedDataInRegion y0 hr w data f) y0 w k = (dataBits data).getD k 0 :=
    fun k hk => embed_extract_bit y0 hr w data f hWF hpos hcap k hk
  apply List.ext_getElem (by simp)
  intro j hj1 hj2
  have hj : j < data.length := by simpa using hj2
  rw [List.getElem_map, List.getElem_range]
  unfold byteFromBits
  rw [eeb (8 * j) (by omega), eeb (8 * j + 1) (by omega), eeb (8 * j + 2) (by omega),
    eeb (8 * j + 3) (by omega), eeb (8 * j + 4) (by omega), eeb (8 * j + 5) (by omega),
    eeb (8 * j + 6) (by omega), eeb (8 * j + 7) (by omega)]
  rw [dataBits_getD data _ (by omega), dataBits_getD data _ (by omega),
    dataBits_getD data _ (by omega), dataBits_getD data _ (by omega),
    dataBits_getD data _ (by omega), dataBits_getD data _ (by omega),
    dataBits_getD data _ (by omega), dataBits_getD data _ (by omega)]
  have d0 : 8 * j / 8 = j := by omega
  have d1 : (8 * j + 1) / 8 = j := by omega
  have d2 : (8 * j + 2) / 8 = j := by omega
  have d3 : (8 * j + 3) / 8 = j := by omega
  have d4 : (8 * j + 4) / 8 = j := by omega
  have d5 : (8 * j + 5) / 8 = j := by omega
  have d6 : (8 * j + 6) / 8 = j := by omega
  have d7 : (8 * j + 7) / 8 = j := by omega
  have m0 : 8 * j % 8 = 0 := by omega
  have m1 : (8 * j + 1) % 8 = 1 := by omega
  have m2 : (8 * j + 2) % 8 = 2 := by omega
  have m3 : (8 * j + 3) % 8 = 3 := by omega
  have m4 : (8 * j + 4) % 8 = 4 := by omega
  have m5 : (8 * j + 5) % 8 = 5 := by omega
  have m6 : (8 * j + 6) % 8 = 6 := by omega
  have m7 : (8 * j + 7) % 8 = 7 := by omega
  rw [d0, d1, d2, d3, d4, d5, d6, d7, m0, m1, m2, m3, m4, m5, m6, m7]
  simp only [shiftRight_and_one, pow_zero, pow_one, Nat.div_one]
  have e2 : (2 : ℕ) ^ 2 = 4 := by norm_num
  have e3 : (2 : ℕ) ^ 3 = 8 := by norm_num
  have e4 : (2 : ℕ) ^ 4 = 16 := by norm_num
  have e5 : (2 : ℕ) ^ 5 = 32 := by norm_num
  have e6 : (2 : ℕ) ^ 6 = 64 := by norm_num
  have e7 : (2 : ℕ) ^ 7 = 128 := by norm_num
  rw [e2, e3, e4, e5, e6, e7, ← List.getD_eq_getElem data 0 hj]
  have hb := hbytes j
  omega

/- ### CRC-32 (model of the `zlib.crc32` library call) -/

/-- One bit step of reflected CRC-32 with polynomial `0xEDB88320`. -/
def crc32Round (c : ℕ) : ℕ := if c % 2 = 1 then (c / 2) ^^^ 0xEDB88320 else c / 2

/-- Absorb one message byte. -/
def crc32Update (c b : ℕ) : ℕ := crc32Round^[8] (c ^^^ b)

def crc32Aux (c : ℕ) (l : List ℕ) : ℕ := l.foldl crc32Update c

/-- `zlib.crc32(bytes)`: init and final xor `0xFFFFFFFF`.  (Checked against the
standard test vector: `crc32 "123456789" = 0xCBF43926`.) -/
def crc32 (l : List ℕ) : ℕ := crc32Aux 0xFFFFFFFF l ^^^ 0xFFFFFFFF

set_option maxRecDepth 100000 in
theorem crc32_check_vector :
    crc32 [0x31, 0x32, 0x33, 0x34, 0x35, 0x36, 0x37, 0x38, 0x39] = 0xCBF43926 := by
  decide

/-- `zlib.crc32(data) & 0xFFFF`, the 16-bit checksum used by the embedder. -/
def crc16Of (l : List ℕ) : ℕ := crc32 l &&& 0xFFFF

/- ### Little-endian packing (`struct.pack` with formats `<I` and `<H`) -/

def le32 (n : ℕ) : List ℕ :=
  [n % 256, n / 256 % 256, n / 256 ^ 2 % 256, n / 256 ^ 3 % 256]

def le16 (n : ℕ) : List ℕ := [n % 256, n / 256 % 256]

/-- The 10-byte record built by `_embed_timing_data`:
`struct.pack('<II', frame_number, timestamp_ms)` followed by
`struct.pack('<H', zlib.crc32(first 8 bytes) & 0xFFFF)`. -/
def timingData (n t : ℕ) : List ℕ := le32 n ++ le32 t ++ le16 (crc16Of (le32 n ++ le32 t))

/-- `SteganographicEmbedder._embed_timing_data`: skip if fewer than 5 rows,
else pack the record into the top strip (`TIMING_STRIP_HEIGHT = 5`). -/
def embedTimingData (h w n t : ℕ) (f : ℕ → ℕ → ℕ → ℕ) : ℕ → ℕ → ℕ → ℕ :=
  if h < 5 then f else embedDataInRegion 0 5 w (timingData n t) f

/-- `max(1, height * SUBTITLE_REGION_HEIGHT_PERCENT // 100)`. -/
def subtitleHeight (h : ℕ) : ℕ := max 1 (h * 10 / 100)

/-- `struct.pack('<IH', len(data), crc) + data` (steganographer.py:127). -/
def packedSubtitle (data : List ℕ) : List ℕ :=
  le32 data.length ++ le16 (crc16Of data) ++ data

/-- `SteganographicEmbedder._embed_subtitle_data`: compute the bottom region,
skip with a warning if it would overlap the timing strip, else pack
length+crc+payload into it. -/
def embedSubtitleData (h w : ℕ) (data : List ℕ) (f : ℕ → ℕ → ℕ → ℕ) :
    ℕ → ℕ → ℕ → ℕ :=
  if h - subtitleHeight h ≤ 5 then f
  else embedDataInRegion (h - subtitleHeight h) (subtitleHeight h) w
    (packedSubtitle data) f

/-- `SteganographicEmbedder.embed_frame_data`.  Invalid (empty) frames are
returned as-is; `struct.error` from out-of-range `<I` fields is caught by the
blanket `except` and the *original* frame is returned; an empty
`subtitle_data` is falsy and skips subtitle embedding. -/
def embedFrameData (h w : ℕ) (f : ℕ → ℕ → ℕ → ℕ) (n t : ℕ)
    (sub : Option (List ℕ)) : ℕ → ℕ → ℕ → ℕ :=
  if h * w = 0 then f
  else if 2 ^ 32 ≤ n ∨ 2 ^ 32 ≤ t then f
  else match sub with
    | none => embedTimingData h w n t f
    | some data =>
      if data.length = 0 then embedTimingData h w n t f
      else if 2 ^ 32 ≤ data.length then f
      else embedSubtitleData h w data (embedTimingData h w n t f)

/-- `struct.unpack('<IIH', data)` followed by the checksum comparison of
`extract_timing_data` (steganographer.py:369-379): decode the pair and the
stored crc little-endian, recompute `zlib.crc32(pack('<II', n, t)) & 0xFFFF`
over the decoded pair, return `(None, None)` on mismatch. -/
def decodeTiming (d : List ℕ) : Option ℕ × Option ℕ :=
  if d.getD 8 0 + 256 * d.getD 9 0 =
      crc16Of (le32 (d.getD 0 0 + 256 * d.getD 1 0 + 256 ^ 2 * d.getD 2 0 +
          256 ^ 3 * d.getD 3 0) ++
        le32 (d.getD 4 0 + 256 * d.getD 5 0 + 256 ^ 2 * d.getD 6 0 +
          256 ^ 3 * d.getD 7 0)) then
    (some (d.getD 0 0 + 256 * d.getD 1 0 + 256 ^ 2 * d.getD 2 0 + 256 ^ 3 * d.getD 3 0),
      some (d.getD 4 0 + 256 * d.getD 5 0 + 256 ^ 2 * d.getD 6 0 + 256 ^ 3 * d.getD 7 0))
  else (none, none)

/-- `SteganographicExtractor.extract_timing_data`: read 10 bytes from the top
strip, give up if fewer come back, unpack `<IIH` little-endian, recompute the
crc over the decoded pair and compare. -/
def extractTimingData (h w : ℕ) (f : ℕ → ℕ → ℕ → ℕ) : Option ℕ × Option ℕ :=
  if h < 5 then (none, none)
  else if (extractDataFromRegion 0 5 w 10 f).length < 10 then (none, none)
  else decodeTiming (extractDataFromRegion 0 5 w 10 f)

/- ### Facts about the packed records -/

theorem le32_getD_le (n j : ℕ) : (le32 n).getD j 0 ≤ 255 := by
  unfold le32
  match j with
  | 0 => simp; omega
  | 1 => simp; omega
  | 2 => simp; omega
  | 3 => simp; omega
  | j + 4 => simp [List.getD_eq_getElem?_getD]

theorem timingData_length (n t : ℕ) : (timingData n t).length = 10 := by
  simp [timingData, le32, le16]

theorem timingData_getD_le (n t j : ℕ) : (timingData n t).getD j 0 ≤ 255 := by
  unfold timingData le32 le16
  match j with
  | 0 => simp; omega
  | 1 => simp; omega
  | 2 => simp; omega
  | 3 => simp; omega
  | 4 => simp; omega
  | 5 => simp; omega
  | 6 => simp; omega
  | 7 => simp; omega
  | 8 => simp; omega
  | 9 => simp; omega
  | j + 10 => simp [List.getD_eq_getElem?_getD]

theorem decode_timingData (n t : ℕ) (hn : n < 2 ^ 32) (ht : t < 2 ^ 32) :
    decodeTiming (timingData n t) = (some n, some t) := by
  have g0 : (timingData n t).getD 0 0 = n % 256 := rfl
  have g1 : (timingData n t).getD 1 0 = n / 256 % 256 := rfl
  have g2 : (timingData n t).getD 2 0 = n / 256 ^ 2 % 256 := rfl
  have g3 : (timingData n t).getD 3 0 = n / 256 ^ 3 % 256 := rfl
  have g4 : (timingData n t).getD 4 0 = t % 256 := rfl
  have g5 : (timingData n t).getD 5 0 = t / 256 % 256 := rfl
  have g6 : (timingData n t).getD 6 0 = t / 256 ^ 2 % 256 := rfl
  have g7 : (timingData n t).getD 7 0 = t / 256 ^ 3 % 256 := rfl
  have g8 : (timingData n t).getD 8 0 = crc16Of (le32 n ++ le32 t) % 256 := rfl
  have g9 : (timingData n t).getD 9 0 = crc16Of (le32 n ++ le32 t) / 256 % 256 := rfl
  have e2 : (256 : ℕ) ^ 2 = 65536 := by norm_num
  have e3 : (256 : ℕ) ^ 3 = 16777216 := by norm_num
  unfold decodeTiming
  rw [g0, g1, g2, g3, g4, g5, g6, g7, g8, g9, e2, e3]
  have hnn : n % 256 + 256 * (n / 256 % 256) + 65536 * (n / 65536 % 256) +
      16777216 * (n / 16777216 % 256) = n := by omega
  have htt : t % 256 + 256 * (t / 256 % 256) + 65536 * (t / 65536 % 256) +
      16777216 * (t / 16777216 % 256) = t := by omega
  have hc16 : crc16Of (le32 n ++ le32 t) ≤ 65535 := Nat.and_le_right
  have hcc : crc16Of (le32 n ++ le32 t) % 256 +
      256 * (crc16Of (le32 n ++ le32 t) / 256 % 256) = crc16Of (le32 n ++ le32 t) := by
    omega
  rw [show n / 65536 = n / 256 ^ 2 by norm_num, show n / 16777216 = n / 256 ^ 3 by norm_num] at hnn
  rw [show t / 65536 = t / 256 ^ 2 by norm_num, show t / 16777216 = t / 256 ^ 3 by norm_num] at htt
  rw [e2, e3] at hnn htt
  rw [hnn, htt, hcc, if_pos rfl]

/-- C1.  For every well-formed 3-channel `uint8` frame with at least 5 rows
whose top strip holds at least 10 bytes at 2 bits/channel, and every 32-bit
pair `(n, t)`, extracting timing data from the frame produced by embedding
returns exactly `(n, t)`. -/
theorem c1_timing_roundtrip (h w : ℕ) (f : ℕ → ℕ → ℕ → ℕ) (n t : ℕ)
    (hWF : FrameWF f) (hh : 5 ≤ h) (hcap : 10 ≤ 5 * w * (2 * 3) / 8)
    (hn : n < 2 ^ 32) (ht : t < 2 ^ 32) :
    extractTimingData h w (embedFrameData h w f n t none) = (some n, some t) := by
  have hw3 : 3 ≤ w := by omega
  have hmul : ¬h * w = 0 := Nat.mul_ne_zero (by omega) (by omega)
  have hemb : embedFrameData h w f n t none = embedDataInRegion 0 5 w (timingData n t) f := by
    unfold embedFrameData embedTimingData
    rw [if_neg hmul, if_neg (by push_neg; exact ⟨hn, ht⟩), if_neg (by omega)]
  rw [hemb]
  have hx := extract_embedded 0 5 w (timingData n t) f hWF (timingData_getD_le n t)
    (by rw [timingData_length]; omega) (by rw [timingData_length]; exact hcap)
  rw [timingData_length] at hx
  unfold extractTimingData
  rw [if_neg (by omega), hx, timingData_length, if_neg (by omega)]
  exact decode_timingData n t hn ht

/-- Witness for C1 at a concrete 5-row, 3-column constant frame. -/
theorem c1_timing_roundtrip_witness :
    extractTimingData 5 3 (embedFrameData 5 3 (fun _ _ _ => 100) 42 1400 none) =
      (some 42, some 1400) :=
  c1_timing_roundtrip 5 3 (fun _ _ _ => 100) 42 1400 (fun _ _ _ => by norm_num)
    (by norm_num) (by norm_num) (by norm_num) (by norm_num)

/-- C10.  Timing extraction fails closed: on frames shorter than 5 rows or too
narrow for the top strip to hold 10 bytes, `extract_timing_data` returns
`(None, None)` (and, being a total function, never raises). -/
theorem c10_extract_fails_closed (h w : ℕ) (f : ℕ → ℕ → ℕ → ℕ)
    (hdeg : h < 5 ∨ 5 * w * (2 * 3) / 8 < 10) :
    extractTimingData h w f = (none, none) := by
  unfold extractTimingData
  by_cases hh : h < 5
  · rw [if_pos hh]
  · rw [if_neg hh]
    have hw2 : w ≤ 2 := by omega
    have hlen : (extractDataFromRegion 0 5 w 10 f).length < 10 := by
      unfold extractDataFromRegion
      by_cases hz : 5 * w = 0
      · rw [if_pos hz]; simp
      · rw [if_neg hz]
        simp only [List.length_map, List.length_range]
        have : min (10 * 8) (5 * w * (2 * 3)) = 5 * w * (2 * 3) :=
          Nat.min_eq_right (by omega)
        rw [this]; omega
    rw [if_pos hlen]

/-- Witness for C10 on a 3-row frame. -/
theorem c10_extract_fails_closed_witness :
    extractTimingData 3 640 (fun _ _ _ => 17) = (none, none) :=
  c10_extract_fails_closed 3 640 (fun _ _ _ => 17) (Or.inl (by norm_num))

/-- C3.  The embedding primitive only ever touches the low two bits of a
channel: the high six bits of every `uint8` channel value are unchanged, and a
channel whose first stream slot lies at or beyond the payload's bit length is
not modified at all. -/
theorem c3_low_bits_only (y0 hr w : ℕ) (data : List ℕ) (f : ℕ → ℕ → ℕ → ℕ)
    (hWF : FrameWF f) (y x c : ℕ) :
    embedDataInRegion y0 hr w data f y x c / 4 = f y x c / 4 ∧
      (8 * data.length ≤ bitIndex w (y - y0) x c →
        embedDataInRegion y0 hr w data f y x c = f y x c) := by
  by_cases hg : hr * w = 0 ∨ data.length = 0 ∨ hr * w * (2 * 3) / 8 < data.length
  · have happ : embedDataInRegion y0 hr w data f y x c = f y x c := by
      unfold embedDataInRegion; rw [if_pos hg]
    rw [happ]; exact ⟨rfl, fun _ => rfl⟩
  · have happ : embedDataInRegion y0 hr w data f y x c =
        if y0 ≤ y ∧ y < y0 + hr ∧ x < w ∧ c < 3 then
          embedChannelVal (dataBits data) w (y - y0) x c (f y x c)
        else f y x c := by
      unfold embedDataInRegion; rw [if_neg hg]
    rw [happ]
    by_cases hin : y0 ≤ y ∧ y < y0 + hr ∧ x < w ∧ c < 3
    · rw [if_pos hin]
      exact ⟨embedChannelVal_high _ _ _ _ _ _ (hWF y x c) (dataBits_le_one data),
        fun hbl => embedChannelVal_untouched _ _ _ _ _ _
          (by rw [dataBits_length]; exact hbl)⟩
    · rw [if_neg hin]; exact ⟨rfl, fun _ => rfl⟩

/-- Witness for C3: channel `(0,2,0)` of a 5x3 region with a 1-byte payload
(its first slot index is 12 ≥ 8) is untouched, and its high bits survive. -/
theorem c3_low_bits_only_witness :
    embedDataInRegion 0 5 3 [7] (fun _ _ _ => 100) 0 2 0 / 4 = 100 / 4 ∧
      (8 * ([7] : List ℕ).length ≤ bitIndex 3 (0 - 0) 2 0 →
        embedDataInRegion 0 5 3 [7] (fun _ _ _ => 100) 0 2 0 = 100) :=
  c3_low_bits_only 0 5 3 [7] (fun _ _ _ => 100) (fun _ _ _ => by norm_num) 0 2 0

/- ### Subtitle record facts -/

theorem packedSubtitle_length (data : List ℕ) :
    (packedSubtitle data).length = data.length + 6 := by
  simp [packedSubtitle, le32, le16]

theorem packedSubtitle_getD_le (data : List ℕ) (hbytes : ∀ j, data.getD j 0 ≤ 255) :
    ∀ j, (packedSubtitle data).getD j 0 ≤ 255 := by
  intro j
  match j with
  | 0 => show data.length % 256 ≤ 255; omega
  | 1 => show data.length / 256 % 256 ≤ 255; omega
  | 2 => show data.length / 256 ^ 2 % 256 ≤ 255; omega
  | 3 => show data.length / 256 ^ 3 % 256 ≤ 255; omega
  | 4 => show crc16Of data % 256 ≤ 255; omega
  | 5 => show crc16Of data / 256 % 256 ≤ 255; omega
  | j + 6 =>
    have : (packedSubtitle data).getD (j + 6) 0 = data.getD j 0 := by
      show (data.length % 256 :: data.length / 256 % 256 :: data.length / 256 ^ 2 % 256 ::
        data.length / 256 ^ 3 % 256 :: crc16Of data % 256 ::
        crc16Of data / 256 % 256 :: data).getD (j + 6) 0 = data.getD j 0
      rw [show j + 6 = j + 1 + 1 + 1 + 1 + 1 + 1 by omega, List.getD_cons_succ,
        List.getD_cons_succ, List.getD_cons_succ, List.getD_cons_succ,
        List.getD_cons_succ, List.getD_cons_succ]
    rw [this]; exact hbytes j

/-- `CapacityExceeded` from the spec's error taxonomy (§7). -/
inductive StegError where
  | capacityExceeded

/-- Follows the spec's words (§4.2/§4.3/§7/§9), as the refinement target for
C2: `embedSubtitle` must return an explicit `CapacityExceeded` failure before
any pixel is written when the packed length+crc+payload record does not fit
the region's byte capacity; overlap with the timing strip stays the non-fatal
skip.  This is the behaviour the spec demands, to be compared with the
source's `embedSubtitleData` above, which logs and returns the frame
unchanged through the ordinary success path. -/
def embedSubtitleSpec (h w : ℕ) (data : List ℕ) (f : ℕ → ℕ → ℕ → ℕ) :
    Except StegError (ℕ → ℕ → ℕ → ℕ) :=
  if h - subtitleHeight h ≤ 5 then Except.ok f
  else if subtitleHeight h * w * (2 * 3) / 8 < (packedSubtitle data).length then
    Except.error StegError.capacityExceeded
  else Except.ok
    (embedDataInRegion (h - subtitleHeight h) (subtitleHeight h) w (packedSubtitle data) f)

/-- Counterexample to C2 as stated: on a 100x4 frame (subtitle region 10 rows,
capacity 30 bytes) with a 25-byte payload (packed length 31 = capacity + 1),
the spec's `embedSubtitle` returns `CapacityExceeded`, but the source's
`_embed_subtitle_data` returns the frame unchanged through the ordinary
success path — no error value exists in its return type. -/
theorem c2_counterexample :
    embedSubtitleSpec 100 4 (List.replicate 25 1) (fun _ _ _ => 7) =
        Except.error StegError.capacityExceeded ∧
      embedSubtitleData 100 4 (List.replicate 25 1) (fun _ _ _ => 7) =
        (fun _ _ _ => 7) :=
  ⟨rfl, rfl⟩

/-- C2 amended.  A packed subtitle record of exactly the region's byte
capacity is embedded in full (extracting the packed length from the subtitle
region returns every byte, none dropped); one byte more and the embedding is
skipped with the frame's pixels untouched, but no error value is returned —
the operation is silently a no-op. -/
theorem c2_subtitle_capacity_boundary (h w : ℕ) (data : List ℕ)
    (f : ℕ → ℕ → ℕ → ℕ) (hWF : FrameWF f) (hbytes : ∀ j, data.getD j 0 ≤ 255)
    (hreg : 5 < h - subtitleHeight h) :
    ((packedSubtitle data).length = subtitleHeight h * w * (2 * 3) / 8 →
      extractDataFromRegion (h - subtitleHeight h) (subtitleHeight h) w
          (packedSubtitle data).length (embedSubtitleData h w data f) =
        packedSubtitle data) ∧
      ((packedSubtitle data).length = subtitleHeight h * w * (2 * 3) / 8 + 1 →
        embedSubtitleData h w data f = f) := by
  constructor
  · intro hcap
    unfold embedSubtitleData
    rw [if_neg (by omega)]
    exact extract_embedded _ _ _ _ f hWF (packedSubtitle_getD_le data hbytes)
      (by rw [packedSubtitle_length]; omega) (by omega)
  · intro hcap
    unfold embedSubtitleData
    rw [if_neg (by omega)]
    unfold embedDataInRegion
    rw [if_pos (by omega)]

/-- Witness for the amended C2 at a 100x4 frame with a 24-byte payload
(packed record = 30 bytes = exact capacity). -/
theorem c2_subtitle_capacity_boundary_witness :
    extractDataFromRegion (100 - subtitleHeight 100) (subtitleHeight 100) 4
        (packedSubtitle (List.replicate 24 2)).length
        (embedSubtitleData 100 4 (List.replicate 24 2) (fun _ _ _ => 9)) =
      packedSubtitle (List.replicate 24 2) :=
  (c2_subtitle_capacity_boundary 100 4 (List.replicate 24 2) (fun _ _ _ => 9)
    (fun _ _ _ => by norm_num)
    (fun j => by
      rw [List.getD_eq_getElem?_getD, List.getElem?_replicate]
      split <;> norm_num)
    (by norm_num [subtitleHeight])).1
    (by rw [packedSubtitle_length]; norm_num [subtitleHeight])

/- ### Marker generator (`marker_generator.py`) -/

inductive CornerPosition where
  | topLeft
  | topRight
  | bottomLeft
  | bottomRight

/-- The fixed 2-bit corner codes of `_create_pattern_data`. -/
def cornerCode : CornerPosition → ℕ
  | .topLeft => 0
  | .topRight => 1
  | .bottomLeft => 2
  | .bottomRight => 3

/-- `MarkerGenerator._generate_video_hash`: `int(md5(id).hexdigest()[:4], 16)`,
the top 16 bits of the 128-bit digest.  `hashlib.md5` is a pure library
function; it is modelled as an explicit parameter `digest : String → ℕ`
giving the 128-bit digest value. -/
def generateVideoHash (digest : String → ℕ) (videoId : String) : ℕ :=
  digest videoId >>> 112 &&& 0xFFFF

/-- `MarkerGenerator._create_pattern_data`: `(video_hash << 2) | corner_id`,
byte-packed LSB-first into `MARKER_SIZE * MARKER_SIZE // 8 = 50` bytes (the
subsequent while-pad and truncate are no-ops at that length). -/
def createPatternData (videoHash : ℕ) (corner : CornerPosition) : List ℕ :=
  (List.range 50).map
    (fun i => ((videoHash <<< 2 ||| cornerCode corner) >>> (i * 8)) &&& 0xFF)

/-- `MarkerGenerator._generate_error_correction`: per pattern byte
`b XOR ((b << 1) & 0xFF)`. -/
def generateErrorCorrection (pattern : List ℕ) : List ℕ :=
  pattern.map (fun b => b ^^^ ((b <<< 1) &&& 0xFF))

/-- `MarkerGenerator._calculate_checksum`: byte slot `i` holds
`((sum(pattern) + sum(correction)) & 0xFFFF) >> (i % 16)) & 0xFF`. -/
def calculateChecksum (pattern correction : List ℕ) : List ℕ :=
  (List.range pattern.length).map
    (fun i => (((pattern.sum + correction.sum) &&& 0xFFFF) >>> (i % 16)) &&& 0xFF)

/-- `MarkerGenerator._embed_pattern_in_channel` walks pixels row-major writing
the data bits LSB-first into the channel's LSB; on the all-zero marker the
channel value at pixel `k = y*20 + x` is bit `k % 8` of byte `k / 8` (the
sequential `data_idx`/`bit_idx` cursor of the Python loop visits exactly that
bit at pixel `k`). -/
def planeBit (data : List ℕ) (y x : ℕ) : ℕ :=
  (data.getD ((y * 20 + x) / 8) 0 >>> ((y * 20 + x) % 8)) &&& 1

/-- Pixels covered by `_add_detection_pattern`'s corner orientation glyph. -/
def glyphCovers : CornerPosition → ℕ → ℕ → Bool
  | .topLeft, y, x => decide (y < 5) && decide (x = y)
  | .topRight, y, x => decide (y < 5) && decide (x = 19 - y)
  | .bottomLeft, y, x => decide (x < 5) && decide (y = 19 - x)
  | .bottomRight, y, x => decide (y = 10) || decide (x = 10)

/-- Channel values of the glyph colours `[255,0,0]`, `[0,255,0]`, `[0,0,255]`
and `[255,255,0]` drawn by `_add_detection_pattern`. -/
def glyphColor : CornerPosition → ℕ → ℕ
  | .topLeft, ch => if ch = 0 then 255 else 0
  | .topRight, ch => if ch = 1 then 255 else 0
  | .bottomLeft, ch => if ch = 2 then 255 else 0
  | .bottomRight, ch => if ch = 0 ∨ ch = 1 then 255 else 0

/-- `MarkerGenerator._generate_corner_marker`: a zero 20x20x3 image, channel 0
carrying the pattern plane, channel 1 the error-correction plane, channel 2
the checksum plane, then `_add_detection_pattern` overwrites in source order
row 0 (white), row 19 (black), column 0 (white), column 19 (black), then the
glyph; later writes win, so the tests here run in reverse write order. -/
def markerPixel (videoHash : ℕ) (corner : CornerPosition) (y x ch : ℕ) : ℕ :=
  if glyphCovers corner y x then glyphColor corner ch
  else if x = 19 then 0
  else if x = 0 then 255
  else if y = 19 then 0
  else if y = 0 then 255
  else if ch = 0 then planeBit (createPatternData videoHash corner) y x
  else if ch = 1 then
    planeBit (generateErrorCorrection (createPatternData videoHash corner)) y x
  else
    planeBit (calculateChecksum (createPatternData videoHash corner)
      (generateErrorCorrection (createPatternData videoHash corner))) y x

structure MarkerGenerator where
  videoHash : ℕ
  markers : CornerPosition → ℕ → ℕ → ℕ → ℕ

/-- `MarkerGenerator.__init__`: hash the video id, then generate all four
corner markers once. -/
def mkMarkerGenerator (digest : String → ℕ) (videoId : String) : MarkerGenerator :=
  { videoHash := generateVideoHash digest videoId
    markers := fun corner => markerPixel (generateVideoHash digest videoId) corner }

/-- C5.  Marker generation is deterministic: two generators independently
constructed from equal identifier strings (under the same deterministic md5
digest) have the same 16-bit identity and pixel-identical corner markers. -/
theorem c5_marker_determinism (digest : String → ℕ) (id1 id2 : String)
    (hid : id1 = id2) :
    (mkMarkerGenerator digest id1).videoHash = (mkMarkerGenerator digest id2).videoHash ∧
      ∀ corner y x ch,
        (mkMarkerGenerator digest id1).markers corner y x ch =
          (mkMarkerGenerator digest id2).markers corner y x ch := by
  subst hid
  exact ⟨rfl, fun _ _ _ _ => rfl⟩

/-- Witness for C5 with a concrete digest function and the default video id. -/
theorem c5_marker_determinism_witness :
    (mkMarkerGenerator (fun s => s.length) "STEGANO_AR_2025").videoHash =
        (mkMarkerGenerator (fun s => s.length) "STEGANO_AR_2025").videoHash ∧
      ∀ corner y x ch,
        (mkMarkerGenerator (fun s => s.length) "STEGANO_AR_2025").markers corner y x ch =
          (mkMarkerGenerator (fun s => s.length) "STEGANO_AR_2025").markers corner y x ch :=
  c5_marker_determinism (fun s => s.length) "STEGANO_AR_2025" "STEGANO_AR_2025" rfl

/-- Follows the spec's words (§3/§6), the reading claimed for C8: the checksum
plane carries the 16-bit sum of all pattern and parity bytes *replicated
byte-wise* across the byte slots — low byte in even slots, high byte in odd
slots.  To be compared with the source's `calculateChecksum` above. -/
def checksumPlaneSpec (pattern correction : List ℕ) : List ℕ :=
  (List.range pattern.length).map
    (fun i =>
      if i % 2 = 0 then ((pattern.sum + correction.sum) &&& 0xFFFF) &&& 0xFF
      else (((pattern.sum + correction.sum) &&& 0xFFFF) >>> 8) &&& 0xFF)

set_option maxRecDepth 100000 in
/-- Counterexample to C8 as stated, at video identity `0xFFFF`, top-left
corner: the 16-bit sum is 520 = 0x208, so byte-wise replication would put 8
in every even slot, but `_calculate_checksum` shifts by `i % 16` *bits*, so
slot 2 carries `(520 >> 2) & 0xFF = 130`, not 8. -/
theorem c8_counterexample :
    (calculateChecksum (createPatternData 0xFFFF CornerPosition.topLeft)
        (generateErrorCorrection (createPatternData 0xFFFF CornerPosition.topLeft))).getD 0 0
      = 8 ∧
    (calculateChecksum (createPatternData 0xFFFF CornerPosition.topLeft)
        (generateErrorCorrection (createPatternData 0xFFFF CornerPosition.topLeft))).getD 2 0
      = 130 ∧
    (checksumPlaneSpec (createPatternData 0xFFFF CornerPosition.topLeft)
        (generateErrorCorrection (createPatternData 0xFFFF CornerPosition.topLeft))).getD 2 0
      = 8 ∧
    (calculateChecksum (createPatternData 0xFFFF CornerPosition.topLeft)
          (generateErrorCorrection (createPatternData 0xFFFF CornerPosition.topLeft))).getD 2 0
      ≠ (checksumPlaneSpec (createPatternData 0xFFFF CornerPosition.topLeft)
          (generateErrorCorrection (createPatternData 0xFFFF CornerPosition.topLeft))).getD 2 0 := by
  decide

/-- C8 amended.  Channel 1 (parity plane) byte `i` is
`pattern[i] XOR ((pattern[i] << 1) & 0xFF)` as claimed; channel 2's byte slot
`i` carries `((sum(pattern) + sum(parity)) & 0xFFFF) >> (i % 16)) & 0xFF` — a
bit-shift staircase of the 16-bit sum, not a byte-wise replication. -/
theorem c8_plane_contents (videoHash : ℕ) (corner : CornerPosition) (i : ℕ)
    (hi : i < 50) :
    (generateErrorCorrection (createPatternData videoHash corner)).getD i 0 =
        (createPatternData videoHash corner).getD i 0 ^^^
          (((createPatternData videoHash corner).getD i 0 <<< 1) &&& 0xFF) ∧
      (calculateChecksum (createPatternData videoHash corner)
          (generateErrorCorrection (createPatternData videoHash corner))).getD i 0 =
        (((createPatternData videoHash corner).sum +
            (generateErrorCorrection (createPatternData videoHash corner)).sum) &&& 0xFFFF)
          >>> (i % 16) &&& 0xFF := by
  have hplen : (createPatternData videoHash corner).length = 50 := by
    simp [createPatternData]
  have hclen : (generateErrorCorrection (createPatternData videoHash corner)).length = 50 := by
    simp [generateErrorCorrection, hplen]
  constructor
  · rw [List.getD_eq_getElem _ 0 (show i < _ by rw [hclen]; exact hi)]
    unfold generateErrorCorrection
    rw [List.getElem_map, ← List.getD_eq_getElem _ 0 (show i < _ by rw [hplen]; exact hi)]
  · have hslen : (calculateChecksum (createPatternData videoHash corner)
        (generateErrorCorrection (createPatternData videoHash corner))).length = 50 := by
      simp [calculateChecksum, hplen]
    rw [List.getD_eq_getElem _ 0 (show i < _ by rw [hslen]; exact hi)]
    unfold calculateChecksum
    rw [List.getElem_map, List.getElem_range]

/-- Witness for the amended C8 at identity `0x1234`, top-left corner, slot 2. -/
theorem c8_plane_contents_witness :
    (generateErrorCorrection (createPatternData 0x1234 CornerPosition.topLeft)).getD 2 0 =
        (createPatternData 0x1234 CornerPosition.topLeft).getD 2 0 ^^^
          (((createPatternData 0x1234 CornerPosition.topLeft).getD 2 0 <<< 1) &&& 0xFF) ∧
      (calculateChecksum (createPatternData 0x1234 CornerPosition.topLeft)
          (generateErrorCorrection (createPatternData 0x1234 CornerPosition.topLeft))).getD 2 0 =
        (((createPatternData 0x1234 CornerPosition.topLeft).sum +
            (generateErrorCorrection (createPatternData 0x1234 CornerPosition.topLeft)).sum)
          &&& 0xFFFF) >>> (2 % 16) &&& 0xFF :=
  c8_plane_contents 0x1234 CornerPosition.topLeft 2 (by norm_num)

/- ### Marker placement and stamping -/

/-- `MarkerGenerator._calculate_marker_positions`: `(x, y)` at the fixed 60-px
margin (`MARGIN_FROM_EDGE`), marker size 20; positions on small frames can be
negative, hence integers. -/
def markerPos (h w : ℕ) : CornerPosition → ℤ × ℤ
  | .topLeft => (60, 60)
  | .topRight => ((w : ℤ) - 60 - 20, 60)
  | .bottomLeft => (60, (h : ℤ) - 60 - 20)
  | .bottomRight => ((w : ℤ) - 60 - 20, (h : ℤ) - 60 - 20)

/-- The bounds check of `embed_markers_in_frame`:
`x + 20 <= w and y + 20 <= h and x >= 0 and y >= 0`. -/
def markerFits (h w : ℕ) (p : ℤ × ℤ) : Bool :=
  decide (p.1 + 20 ≤ (w : ℤ)) && decide (p.2 + 20 ≤ (h : ℤ)) &&
    decide (0 ≤ p.1) && decide (0 ≤ p.2)

/-- `result_frame[y:y+20, x:x+20] = marker` for one corner; a corner that does
not fit is skipped (warning only, not fatal). -/
def stampMarker (h w : ℕ) (mk : ℕ → ℕ → ℕ → ℕ) (p : ℤ × ℤ) (f : ℕ → ℕ → ℕ → ℕ) :
    ℕ → ℕ → ℕ → ℕ :=
  if markerFits h w p then
    fun y x c =>
      if p.2 ≤ (y : ℤ) ∧ (y : ℤ) < p.2 + 20 ∧ p.1 ≤ (x : ℤ) ∧ (x : ℤ) < p.1 + 20 then
        mk ((y : ℤ) - p.2).toNat ((x : ℤ) - p.1).toNat c
      else f y x c
  else f

/-- `MarkerGenerator.embed_markers_in_frame`: empty frames are returned as-is;
the corners are stamped in dict insertion order TL, TR, BL, BR, so a later
corner's block overwrites an earlier one where they overlap. -/
def embedMarkersInFrame (h w : ℕ) (markers : CornerPosition → ℕ → ℕ → ℕ → ℕ)
    (f : ℕ → ℕ → ℕ → ℕ) : ℕ → ℕ → ℕ → ℕ :=
  if h * w = 0 then f
  else
    stampMarker h w (markers .bottomRight) (markerPos h w .bottomRight)
      (stampMarker h w (markers .bottomLeft) (markerPos h w .bottomLeft)
        (stampMarker h w (markers .topRight) (markerPos h w .topRight)
          (stampMarker h w (markers .topLeft) (markerPos h w .topLeft) f)))

/-- Pixel `(y, x)` lies inside the stamped block of a fitting marker at `p`. -/
def coveredBy (h w : ℕ) (p : ℤ × ℤ) (y x : ℕ) : Prop :=
  markerFits h w p = true ∧
    p.2 ≤ (y : ℤ) ∧ (y : ℤ) < p.2 + 20 ∧ p.1 ≤ (x : ℤ) ∧ (x : ℤ) < p.1 + 20

instance (h w : ℕ) (p : ℤ × ℤ) (y x : ℕ) : Decidable (coveredBy h w p y x) := by
  unfold coveredBy; infer_instance

/-- The corners stamped after a given one (Python dict order TL, TR, BL, BR). -/
def laterCorners : CornerPosition → List CornerPosition
  | .topLeft => [.topRight, .bottomLeft, .bottomRight]
  | .topRight => [.bottomLeft, .bottomRight]
  | .bottomLeft => [.bottomRight]
  | .bottomRight => []

theorem stampMarker_apply (h w : ℕ) (mk : ℕ → ℕ → ℕ → ℕ) (p : ℤ × ℤ)
    (f : ℕ → ℕ → ℕ → ℕ) (y x c : ℕ) :
    stampMarker h w mk p f y x c =
      if coveredBy h w p y x then mk ((y : ℤ) - p.2).toNat ((x : ℤ) - p.1).toNat c
      else f y x c := by
  unfold stampMarker coveredBy
  by_cases hf : markerFits h w p = true
  · rw [if_pos hf]
    by_cases hin : p.2 ≤ (y : ℤ) ∧ (y : ℤ) < p.2 + 20 ∧ p.1 ≤ (x : ℤ) ∧ (x : ℤ) < p.1 + 20
    · rw [if_pos hin, if_pos ⟨hf, hin⟩]
    · rw [if_neg hin, if_neg (by intro hc; exact hin hc.2)]
  · rw [if_neg (by simpa using hf), if_neg (by intro hc; exact hf hc.1)]

theorem fits_large (h w : ℕ) (corner : CornerPosition)
    (hf : markerFits h w (markerPos h w corner) = true) : 20 ≤ h ∧ 20 ≤ w := by
  cases corner <;>
    simp [markerFits, markerPos] at hf <;> omega

/-- C6 amended.  Marker stamping is total and skips non-fitting corners: a
pixel covered by no fitting corner's block is unchanged, and a pixel covered
by a fitting corner's block and by no *later* fitting corner's block (stamping
order TL, TR, BL, BR) carries that corner's marker pixel.  (Where the blocks
of two fitting corners overlap — possible on frames narrower than 160 px or
shorter than 160 px — the later corner overwrites the earlier one, so the
earlier block is *not* an exact copy of its marker.) -/
theorem c6_marker_stamping (h w : ℕ) (markers : CornerPosition → ℕ → ℕ → ℕ → ℕ)
    (f : ℕ → ℕ → ℕ → ℕ) (y x c : ℕ) :
    ((∀ corner, ¬ coveredBy h w (markerPos h w corner) y x) →
      embedMarkersInFrame h w markers f y x c = f y x c) ∧
      (∀ corner, coveredBy h w (markerPos h w corner) y x →
        (∀ c2 ∈ laterCorners corner, ¬ coveredBy h w (markerPos h w c2) y x) →
        embedMarkersInFrame h w markers f y x c =
          markers corner ((y : ℤ) - (markerPos h w corner).2).toNat
            ((x : ℤ) - (markerPos h w corner).1).toNat c) := by
  constructor
  · intro hnone
    unfold embedMarkersInFrame
    by_cases hz : h * w = 0
    · rw [if_pos hz]
    · rw [if_neg hz, stampMarker_apply, if_neg (hnone .bottomRight),
        stampMarker_apply, if_neg (hnone .bottomLeft),
        stampMarker_apply, if_neg (hnone .topRight),
        stampMarker_apply, if_neg (hnone .topLeft)]
  · intro corner hcov hlater
    have hz : ¬ h * w = 0 := by
      have := fits_large h w corner hcov.1
      have : 20 * 20 ≤ h * w := Nat.mul_le_mul this.1 this.2
      omega
    unfold embedMarkersInFrame
    rw [if_neg hz]
    cases corner with
    | bottomRight =>
      rw [stampMarker_apply, if_pos hcov]
    | bottomLeft =>
      rw [stampMarker_apply,
        if_neg (hlater .bottomRight (by simp [laterCorners])),
        stampMarker_apply, if_pos hcov]
    | topRight =>
      rw [stampMarker_apply,
        if_neg (hlater .bottomRight (by simp [laterCorners])),
        stampMarker_apply,
        if_neg (hlater .bottomLeft (by simp [laterCorners])),
        stampMarker_apply, if_pos hcov]
    | topLeft =>
      rw [stampMarker_apply,
        if_neg (hlater .bottomRight (by simp [laterCorners])),
        stampMarker_apply,
        if_neg (hlater .bottomLeft (by simp [laterCorners])),
        stampMarker_apply,
        if_neg (hlater .topRight (by simp [laterCorners])),
        stampMarker_apply, if_pos hcov]

set_option maxRecDepth 100000 in
/-- Counterexample to C6 as stated, on a 400x150 frame: the top-left corner
fits (block columns 60-79), but the top-right corner also fits at x = 70
(block columns 70-89) and is stamped later, overwriting columns 70-79 of the
top-left block.  At frame pixel (65, 70) — offset (5, 10) inside the TL block
— the frame carries 255 (the TR marker's white left border) while the TL
marker's own pixel (5, 10) is 0: the stamped TL block is not an exact copy. -/
theorem c6_counterexample :
    markerPos 400 150 CornerPosition.topLeft = (60, 60) ∧
      markerFits 400 150 (markerPos 400 150 CornerPosition.topLeft) = true ∧
      embedMarkersInFrame 400 150 (mkMarkerGenerator (fun _ => 0) "v").markers
        (fun _ _ _ => 7) 65 70 0 = 255 ∧
      (mkMarkerGenerator (fun _ => 0) "v").markers CornerPosition.topLeft 5 10 0 = 0 := by
  refine ⟨rfl, by decide, ?_, by decide⟩
  decide

/-- Witness for the amended C6 on a 1000x2000 frame at pixel (60, 60):
covered by the fitting top-left block only, so it carries the TL marker's
pixel (0, 0). -/
theorem c6_marker_stamping_witness :
    embedMarkersInFrame 1000 2000 (mkMarkerGenerator (fun _ => 0) "v").markers
        (fun _ _ _ => 3) 60 60 0 =
      (mkMarkerGenerator (fun _ => 0) "v").markers CornerPosition.topLeft
        ((60 : ℤ) - (markerPos 1000 2000 CornerPosition.topLeft).2).toNat
        ((60 : ℤ) - (markerPos 1000 2000 CornerPosition.topLeft).1).toNat 0 :=
  (c6_marker_stamping 1000 2000 (mkMarkerGenerator (fun _ => 0) "v").markers
    (fun _ _ _ => 3) 60 60 0).2 CornerPosition.topLeft (by decide)
    (by decide)

/- ### Subtitle selection (`prepare_subtitle_data_for_frame`) -/

/-- `SubtitleEntry` from `subtitle_parser.py`. -/
structure SubtitleEntry where
  start_ms : ℕ
  end_ms : ℕ
  text : String
  index : ℕ
deriving DecidableEq

/-- `int(frame_number * self.frame_duration_ms)` with
`frame_duration_ms = 1000.0 / video_fps`, over exact rationals (`int` of a
nonnegative value truncates, i.e. floors). -/
def frameTimeMs (fps : ℚ) (frameNumber : ℕ) : ℤ :=
  ⌊(frameNumber : ℚ) * (1000 / fps)⌋

/-- The selection loop of `prepare_subtitle_data_for_frame`: the first entry
with `start_ms <= frame_time_ms < end_ms`, else `None`. -/
def selectActiveSubtitle (subs : List SubtitleEntry) (t : ℤ) : Option SubtitleEntry :=
  subs.find? (fun s => decide ((s.start_ms : ℤ) ≤ t ∧ t < (s.end_ms : ℤ)))

/-- `prepare_subtitle_data_for_frame` up to the external lz4 compression: the
active entry handed to `compress_subtitle_text`, if any. -/
def prepareSubtitleForFrame (subs : List SubtitleEntry) (fps : ℚ) (n : ℕ) :
    Option SubtitleEntry :=
  selectActiveSubtitle subs (frameTimeMs fps n)

theorem selectActive_first_match (subs : List SubtitleEntry) (t : ℤ)
    (e : SubtitleEntry) (h : selectActiveSubtitle subs t = some e) :
    ((e.start_ms : ℤ) ≤ t ∧ t < (e.end_ms : ℤ)) ∧
      ∃ pre post, subs = pre ++ e :: post ∧
        ∀ e2 ∈ pre, ¬((e2.start_ms : ℤ) ≤ t ∧ t < (e2.end_ms : ℤ)) := by
  induction subs with
  | nil => simp [selectActiveSubtitle] at h
  | cons a rest ih =>
    rw [selectActiveSubtitle, List.find?_cons] at h
    by_cases hp : (a.start_ms : ℤ) ≤ t ∧ t < (a.end_ms : ℤ)
    · rw [decide_eq_true hp] at h
      have ha : a = e := by injection h
      subst ha
      exact ⟨hp, [], rest, rfl, by simp⟩
    · rw [decide_eq_false hp] at h
      obtain ⟨he, pre, post, hsplit, hpre⟩ := ih h
      refine ⟨he, a :: pre, post, by rw [hsplit]; rfl, ?_⟩
      intro e2 he2
      rcases List.mem_cons.mp he2 with rfl | hmem
      · exact hp
      · exact hpre e2 hmem

/-- C4.  `frameTimeMs` is `floor(frameNumber * 1000 / fps)`; the selection
returns the first timeline entry whose half-open interval
`start <= t < end` contains the frame time and `None` when no entry is
active; and on the timeline `[{0,3000,"a"},{3500,7000,"b"}]` (with fps = 1000
so that frame `k` is at `k` ms) frame time 2999 selects "a", 3000 selects
none, 3500 selects "b", 7000 selects none. -/
theorem c4_subtitle_selection (fps : ℚ) (n : ℕ) (subs : List SubtitleEntry)
    (t : ℤ) :
    frameTimeMs fps n = ⌊(n * 1000 : ℚ) / fps⌋ ∧
      (selectActiveSubtitle subs t = none ↔
        ∀ e ∈ subs, ¬((e.start_ms : ℤ) ≤ t ∧ t < (e.end_ms : ℤ))) ∧
      (∀ e, selectActiveSubtitle subs t = some e →
        ((e.start_ms : ℤ) ≤ t ∧ t < (e.end_ms : ℤ)) ∧
          ∃ pre post, subs = pre ++ e :: post ∧
            ∀ e2 ∈ pre, ¬((e2.start_ms : ℤ) ≤ t ∧ t < (e2.end_ms : ℤ))) ∧
      (prepareSubtitleForFrame [⟨0, 3000, "a", 1⟩, ⟨3500, 7000, "b", 2⟩] 1000 2999 =
          some ⟨0, 3000, "a", 1⟩ ∧
        prepareSubtitleForFrame [⟨0, 3000, "a", 1⟩, ⟨3500, 7000, "b", 2⟩] 1000 3000 =
          none ∧
        prepareSubtitleForFrame [⟨0, 3000, "a", 1⟩, ⟨3500, 7000, "b", 2⟩] 1000 3500 =
          some ⟨3500, 7000, "b", 2⟩ ∧
        prepareSubtitleForFrame [⟨0, 3000, "a", 1⟩, ⟨3500, 7000, "b", 2⟩] 1000 7000 =
          none) := by
  refine ⟨?_, ?_, ?_, ?_, ?_, ?_, ?_⟩
  · unfold frameTimeMs
    rw [mul_div_assoc]
  · rw [selectActiveSubtitle, List.find?_eq_none]
    simp
  · exact fun e h => selectActive_first_match subs t e h
  · have hf : frameTimeMs 1000 2999 = 2999 := by unfold frameTimeMs; norm_num
    unfold prepareSubtitleForFrame
    rw [hf]; decide
  · have hf : frameTimeMs 1000 3000 = 3000 := by unfold frameTimeMs; norm_num
    unfold prepareSubtitleForFrame
    rw [hf]; decide
  · have hf : frameTimeMs 1000 3500 = 3500 := by unfold frameTimeMs; norm_num
    unfold prepareSubtitleForFrame
    rw [hf]; decide
  · have hf : frameTimeMs 1000 7000 = 7000 := by unfold frameTimeMs; norm_num
    unfold prepareSubtitleForFrame
    rw [hf]; decide

/-- Witness for C4: the first-match component applied at frame time 100 on the
test timeline. -/
theorem c4_subtitle_selection_witness :
    (((⟨0, 3000, "a", 1⟩ : SubtitleEntry).start_ms : ℤ) ≤ 100 ∧
        (100 : ℤ) < ((⟨0, 3000, "a", 1⟩ : SubtitleEntry).end_ms : ℤ)) ∧
      ∃ pre post,
        [⟨0, 3000, "a", 1⟩, ⟨3500, 7000, "b", 2⟩] =
            pre ++ (⟨0, 3000, "a", 1⟩ : SubtitleEntry) :: post ∧
          ∀ e2 ∈ pre, ¬((e2.start_ms : ℤ) ≤ 100 ∧ (100 : ℤ) < (e2.end_ms : ℤ)) :=
  (c4_subtitle_selection 30 5 [⟨0, 3000, "a", 1⟩, ⟨3500, 7000, "b", 2⟩] 100).2.2.1
    ⟨0, 3000, "a", 1⟩ (by decide)

/- ### Aliasing behaviour of `embed_frame_data` -/

/-- State-passing model of one `embed_frame_data` call: the pair is (the
caller's input array after the call, the returned array).  The Python body
copies the frame first (`result_frame = frame.copy()`) and every subsequent
write goes through views of the copy, so the input component passes through
unchanged; on the invalid-frame guard, and on a `struct.error` caught by the
blanket `except` (a `<I` field of 2^32 or more), the original frame is
returned. -/
def embedFrameDataCall (h w : ℕ) (f : ℕ → ℕ → ℕ → ℕ) (n t : ℕ)
    (sub : Option (List ℕ)) : (ℕ → ℕ → ℕ → ℕ) × (ℕ → ℕ → ℕ → ℕ) :=
  (f, embedFrameData h w f n t sub)

/-- C9.  The caller's frame is bit-identical after every call, and on the
failure paths (empty frame, out-of-range frame number, timestamp or subtitle
length — the internal-exception path) the returned array equals the input
frame unchanged. -/
theorem c9_input_not_mutated (h w : ℕ) (f : ℕ → ℕ → ℕ → ℕ) (n t : ℕ)
    (sub : Option (List ℕ)) :
    (embedFrameDataCall h w f n t sub).1 = f ∧
      (h * w = 0 → (embedFrameDataCall h w f n t sub).2 = f) ∧
      (2 ^ 32 ≤ n ∨ 2 ^ 32 ≤ t → (embedFrameDataCall h w f n t sub).2 = f) ∧
      (∀ data, sub = some data → 2 ^ 32 ≤ data.length →
        (embedFrameDataCall h w f n t sub).2 = f) := by
  refine ⟨rfl, ?_, ?_, ?_⟩
  · intro hz
    show embedFrameData h w f n t sub = f
    unfold embedFrameData
    rw [if_pos hz]
  · intro hnt
    show embedFrameData h w f n t sub = f
    unfold embedFrameData
    by_cases hz : h * w = 0
    · rw [if_pos hz]
    · rw [if_neg hz, if_pos hnt]
  · intro data hsub hlen
    subst hsub
    show embedFrameData h w f n t (some data) = f
    unfold embedFrameData
    by_cases hz : h * w = 0
    · rw [if_pos hz]
    · rw [if_neg hz]
      by_cases hnt : 2 ^ 32 ≤ n ∨ 2 ^ 32 ≤ t
      · rw [if_pos hnt]
      · rw [if_neg hnt]
        show (if data.length = 0 then embedTimingData h w n t f
          else if 2 ^ 32 ≤ data.length then f
          else embedSubtitleData h w data (embedTimingData h w n t f)) = f
        rw [if_neg (by omega), if_pos hlen]

/-- Witness for C9 on an empty frame. -/
theorem c9_input_not_mutated_witness :
    (embedFrameDataCall 0 5 (fun _ _ _ => 8) 1 2 none).1 = (fun _ _ _ => 8) ∧
      (embedFrameDataCall 0 5 (fun _ _ _ => 8) 1 2 none).2 = (fun _ _ _ => 8) :=
  ⟨(c9_input_not_mutated 0 5 (fun _ _ _ => 8) 1 2 none).1,
    (c9_input_not_mutated 0 5 (fun _ _ _ => 8) 1 2 none).2.1 (by norm_num)⟩

/- ### Single-bit corruption of an embedded record (C7 support) -/

theorem bit_eq_testBit (v p : ℕ) :
    (v >>> p) &&& 1 = if v.testBit p then 1 else 0 := by
  rw [shiftRight_and_one, Nat.testBit_to_div_mod]
  rcases Nat.mod_two_eq_zero_or_one (v / 2 ^ p) with hm | hm <;> simp [hm]

theorem xor_pow_bit (v k p : ℕ) :
    ((v ^^^ 2 ^ k) >>> p) &&& 1 =
      if p = k then 1 - ((v >>> p) &&& 1) else (v >>> p) &&& 1 := by
  rw [bit_eq_testBit, bit_eq_testBit, Nat.testBit_xor, Nat.testBit_two_pow]
  by_cases hpk : p = k
  · subst hpk
    cases hv : v.testBit p <;> simp [hv]
  · have hkp : ¬ k = p := fun hc => hpk hc.symm
    simp [hkp, hpk]

theorem sum_bits_eq (v : ℕ) (hv : v ≤ 255) :
    ((v >>> 0) &&& 1) + 2 * ((v >>> 1) &&& 1) + 4 * ((v >>> 2) &&& 1) +
      8 * ((v >>> 3) &&& 1) + 16 * ((v >>> 4) &&& 1) + 32 * ((v >>> 5) &&& 1) +
      64 * ((v >>> 6) &&& 1) + 128 * ((v >>> 7) &&& 1) = v := by
  simp only [shiftRight_and_one, pow_zero, pow_one, Nat.div_one]
  have e2 : (2 : ℕ) ^ 2 = 4 := by norm_num
  have e3 : (2 : ℕ) ^ 3 = 8 := by norm_num
  have e4 : (2 : ℕ) ^ 4 = 16 := by norm_num
  have e5 : (2 : ℕ) ^ 5 = 32 := by norm_num
  have e6 : (2 : ℕ) ^ 6 = 64 := by norm_num
  have e7 : (2 : ℕ) ^ 7 = 128 := by norm_num
  rw [e2, e3, e4, e5, e6, e7]
  omega

theorem byte_flip_sum (b i j k : ℕ) (hb : b ≤ 255) (hij : i = 8 * j + k)
    (hk : k < 8) :
    (if 8 * j + 0 = i then 1 - ((b >>> 0) &&& 1) else ((b >>> 0) &&& 1)) +
      2 * (if 8 * j + 1 = i then 1 - ((b >>> 1) &&& 1) else (b >>> 1) &&& 1) +
      4 * (if 8 * j + 2 = i then 1 - ((b >>> 2) &&& 1) else (b >>> 2) &&& 1) +
      8 * (if 8 * j + 3 = i then 1 - ((b >>> 3) &&& 1) else (b >>> 3) &&& 1) +
      16 * (if 8 * j + 4 = i then 1 - ((b >>> 4) &&& 1) else (b >>> 4) &&& 1) +
      32 * (if 8 * j + 5 = i then 1 - ((b >>> 5) &&& 1) else (b >>> 5) &&& 1) +
      64 * (if 8 * j + 6 = i then 1 - ((b >>> 6) &&& 1) else (b >>> 6) &&& 1) +
      128 * (if 8 * j + 7 = i then 1 - ((b >>> 7) &&& 1) else (b >>> 7) &&& 1) =
      b ^^^ 2 ^ k := by
  subst hij
  have hx : b ^^^ 2 ^ k ≤ 255 := by
    have h1 : b < 2 ^ 8 := by omega
    have h2 : 2 ^ k < 2 ^ 8 := Nat.pow_lt_pow_right (by norm_num) hk
    have := Nat.xor_lt_two_pow h1 h2
    omega
  rw [← sum_bits_eq (b ^^^ 2 ^ k) hx]
  rw [xor_pow_bit b k 0, xor_pow_bit b k 1, xor_pow_bit b k 2, xor_pow_bit b k 3,
    xor_pow_bit b k 4, xor_pow_bit b k 5, xor_pow_bit b k 6, xor_pow_bit b k 7]
  simp only [Nat.add_right_inj]

/-- Flip the single embedded bit `i` of the region starting at row `y0`: bit
`i % 2` of the channel value carrying stream slot `i` is toggled. -/
def flipEmbeddedBit (y0 w i : ℕ) (f : ℕ → ℕ → ℕ → ℕ) : ℕ → ℕ → ℕ → ℕ :=
  fun y x c =>
    if y = y0 + i / (w * 6) ∧ x = i / 6 % w ∧ c = i % 6 / 2 then
      f y x c ^^^ 2 ^ (i % 2)
    else f y x c

theorem flip_extractedBit (y0 w : ℕ) (g : ℕ → ℕ → ℕ → ℕ) (i j : ℕ) (hw : 0 < w) :
    extractedBit (flipEmbeddedBit y0 w i g) y0 w j =
      if j = i then 1 - extractedBit g y0 w j else extractedBit g y0 w j := by
  simp only [flipEmbeddedBit, extractedBit]
  by_cases hch : j / 2 = i / 2
  · have hco := (coords_eq_iff w i j hw).mpr hch
    rw [if_pos ⟨by rw [hco.1], hco.2.1, hco.2.2⟩]
    rw [xor_pow_bit]
    by_cases hji : j = i
    · subst hji
      rw [if_pos rfl, if_pos rfl]
    · rw [if_neg (by omega : ¬ j % 2 = i % 2), if_neg hji]
  · have hne : ¬(y0 + j / (w * 6) = y0 + i / (w * 6) ∧ j / 6 % w = i / 6 % w ∧
        j % 6 / 2 = i % 6 / 2) := by
      intro hc
      exact hch ((coords_eq_iff w i j hw).mp ⟨by omega, hc.2.1, hc.2.2⟩)
    rw [if_neg hne, if_neg (by omega : ¬ j = i)]

/-- The byte string with bit `bitIdx` of byte `byteIdx` toggled. -/
def flipByteAt (d : List ℕ) (byteIdx bitIdx : ℕ) : List ℕ :=
  (List.range d.length).map
    (fun k => if k = byteIdx then d.getD k 0 ^^^ 2 ^ bitIdx else d.getD k 0)

theorem flipByteAt_length (d : List ℕ) (bi ki : ℕ) :
    (flipByteAt d bi ki).length = d.length := by
  simp [flipByteAt]

theorem flipByteAt_getD (d : List ℕ) (bi ki k : ℕ) (hk : k < d.length) :
    (flipByteAt d bi ki).getD k 0 =
      if k = bi then d.getD k 0 ^^^ 2 ^ ki else d.getD k 0 := by
  unfold flipByteAt
  rw [List.getD_eq_getElem _ 0 (by simpa using hk), List.getElem_map, List.getElem_range]

theorem extract_flipped (y0 hr w : ℕ) (data : List ℕ) (f : ℕ → ℕ → ℕ → ℕ)
    (hWF : FrameWF f) (hbytes : ∀ j, data.getD j 0 ≤ 255) (hpos : 0 < data.length)
    (hcap : data.length ≤ hr * w * (2 * 3) / 8) (i : ℕ) (hi : i < 8 * data.length) :
    extractDataFromRegion y0 hr w data.length
        (flipEmbeddedBit y0 w i (embedDataInRegion y0 hr w data f)) =
      flipByteAt data (i / 8) (i % 8) := by
  have hbits : data.length * 8 ≤ hr * w * (2 * 3) :=
    (Nat.le_div_iff_mul_le (by norm_num)).mp hcap
  have hA : 0 < hr * w := by
    rcases Nat.eq_zero_or_pos (hr * w) with h0 | hp
    · rw [h0] at hbits; simp at hbits; omega
    · exact hp
  have hw : 0 < w := by
    rcases Nat.eq_zero_or_pos w with h0 | hp
    · rw [h0, Nat.mul_zero] at hA; omega
    · exact hp
  unfold extractDataFromRegion
  rw [if_neg (by omega), Nat.min_eq_left hbits,
    Nat.mul_div_cancel data.length (by norm_num)]
  unfold flipByteAt
  apply List.ext_getElem (by simp)
  intro j hj1 hj2
  have hj : j < data.length := by simpa using hj2
  rw [List.getElem_map, List.getElem_range, List.getElem_map, List.getElem_range]
  unfold byteFromBits
  rw [flip_extractedBit y0 w _ i (8 * j) hw, flip_extractedBit y0 w _ i (8 * j + 1) hw,
    flip_extractedBit y0 w _ i (8 * j + 2) hw, flip_extractedBit y0 w _ i (8 * j + 3) hw,
    flip_extractedBit y0 w _ i (8 * j + 4) hw, flip_extractedBit y0 w _ i (8 * j + 5) hw,
    flip_extractedBit y0 w _ i (8 * j + 6) hw, flip_extractedBit y0 w _ i (8 * j + 7) hw]
  have eeb : ∀ m, m < 8 →
      extractedBit (embedDataInRegion y0 hr w data f) y0 w (8 * j + m) =
        (data.getD j 0 >>> m) &&& 1 := by
    intro m hm
    rw [embed_extract_bit y0 hr w data f hWF hpos hcap (8 * j + m) (by omega),
      dataBits_getD data _ (by omega), show (8 * j + m) / 8 = j by omega,
      show (8 * j + m) % 8 = m by omega]
  have eeb0 : extractedBit (embedDataInRegion y0 hr w data f) y0 w (8 * j) =
      (data.getD j 0 >>> 0) &&& 1 := eeb 0 (by norm_num)
  rw [eeb0, eeb 1 (by norm_num), eeb 2 (by norm_num), eeb 3 (by norm_num),
    eeb 4 (by norm_num), eeb 5 (by norm_num), eeb 6 (by norm_num), eeb 7 (by norm_num)]
  by_cases hbi : j = i / 8
  · rw [if_pos hbi]
    subst hbi
    exact byte_flip_sum (data.getD (i / 8) 0) i (i / 8) (i % 8) (hbytes _)
      (by omega) (by omega)
  · rw [if_neg hbi, if_neg (show ¬ 8 * j = i by omega),
      if_neg (show ¬ 8 * j + 1 = i by omega), if_neg (show ¬ 8 * j + 2 = i by omega),
      if_neg (show ¬ 8 * j + 3 = i by omega), if_neg (show ¬ 8 * j + 4 = i by omega),
      if_neg (show ¬ 8 * j + 5 = i by omega), if_neg (show ¬ 8 * j + 6 = i by omega),
      if_neg (show ¬ 8 * j + 7 = i by omega)]
    exact sum_bits_eq (data.getD j 0) (hbytes j)

/- ### Linearity of CRC-32 over xor, and the 16-bit syndromes -/

theorem xor_left_comm (a b c : ℕ) : a ^^^ (b ^^^ c) = b ^^^ (a ^^^ c) := by
  rw [← Nat.xor_assoc, Nat.xor_comm a b, Nat.xor_assoc]

theorem xor_mod_two (a b : ℕ) : (a ^^^ b) % 2 = (a % 2 + b % 2) % 2 := by
  have h : (a ^^^ b) &&& 1 = (a &&& 1) ^^^ (b &&& 1) := Nat.and_xor_distrib_right
  rw [Nat.and_one_is_mod, Nat.and_one_is_mod, Nat.and_one_is_mod] at h
  rw [h]
  rcases Nat.mod_two_eq_zero_or_one a with ha | ha <;>
    rcases Nat.mod_two_eq_zero_or_one b with hb | hb <;> rw [ha, hb] <;> decide

theorem crc32Round_xor (a b : ℕ) :
    crc32Round (a ^^^ b) = crc32Round a ^^^ crc32Round b := by
  unfold crc32Round
  have hm := xor_mod_two a b
  have hd : (a ^^^ b) / 2 = a / 2 ^^^ b / 2 := Nat.xor_div_two
  rcases Nat.mod_two_eq_zero_or_one a with ha | ha <;>
    rcases Nat.mod_two_eq_zero_or_one b with hb | hb <;>
    rw [ha, hb] at hm <;>
    simp only [ha, hb, hm] <;>
    norm_num <;>
    simp [hd, Nat.xor_assoc, Nat.xor_comm, xor_left_comm, Nat.xor_self,
      Nat.xor_zero]

theorem crc32Round_iterate_xor (k a b : ℕ) :
    crc32Round^[k] (a ^^^ b) = crc32Round^[k] a ^^^ crc32Round^[k] b := by
  induction k generalizing a b with
  | zero => simp
  | succ k ih =>
    rw [Function.iterate_succ_apply, Function.iterate_succ_apply,
      Function.iterate_succ_apply, crc32Round_xor, ih]

theorem crc32Update_xor (a b x y : ℕ) :
    crc32Update (a ^^^ b) (x ^^^ y) = crc32Update a x ^^^ crc32Update b y := by
  unfold crc32Update
  rw [show (a ^^^ b) ^^^ (x ^^^ y) = (a ^^^ x) ^^^ (b ^^^ y) by
      simp [Nat.xor_assoc, Nat.xor_comm, xor_left_comm],
    crc32Round_iterate_xor]

theorem crc32Aux_xor (l1 l2 : List ℕ) (hlen : l1.length = l2.length) (a b : ℕ) :
    crc32Aux (a ^^^ b) (List.zipWith (· ^^^ ·) l1 l2) =
      crc32Aux a l1 ^^^ crc32Aux b l2 := by
  induction l1 generalizing l2 a b with
  | nil =>
    have : l2 = [] := by
      cases l2 with
      | nil => rfl
      | cons z zs => simp at hlen
    subst this
    simp [crc32Aux]
  | cons x xs ih =>
    cases l2 with
    | nil => simp at hlen
    | cons y ys =>
      simp only [List.zipWith_cons_cons, crc32Aux, List.foldl_cons]
      rw [show crc32Update (a ^^^ b) (x ^^^ y) = crc32Update a x ^^^ crc32Update b y from
        crc32Update_xor a b x y]
      exact ih ys (by simpa using hlen) _ _

theorem crc32_zip_xor (l e : List ℕ) (hlen : l.length = e.length) :
    crc32 (List.zipWith (· ^^^ ·) l e) = crc32 l ^^^ crc32Aux 0 e := by
  unfold crc32
  have h := crc32Aux_xor l e hlen 0xFFFFFFFF 0
  rw [Nat.xor_zero] at h
  rw [h]
  simp [Nat.xor_assoc, Nat.xor_comm, xor_left_comm]

/-- The single-bit error pattern over the 8 timing data bytes: byte `i / 8`
carries `2 ^ (i % 8)`, the rest are zero. -/
def errPattern (i : ℕ) : List ℕ :=
  (List.range 8).map (fun k => if k = i / 8 then 2 ^ (i % 8) else 0)

set_option maxRecDepth 1000000 in
/-- Every single-bit error in the 8 data bytes has a nonzero 16-bit syndrome:
the low 16 bits of the CRC-32 difference are never all zero. -/
theorem syndromes_nonzero : ∀ i < 64, crc32Aux 0 (errPattern i) &&& 0xFFFF ≠ 0 := by
  decide

theorem xor_eq_left_iff (a b : ℕ) : a ^^^ b = a ↔ b = 0 := by
  constructor
  · intro h
    have h2 : a ^^^ (a ^^^ b) = a ^^^ a := by rw [h]
    rwa [← Nat.xor_assoc, Nat.xor_self, Nat.zero_xor] at h2
  · intro h
    rw [h, Nat.xor_zero]

theorem le32_of_bytes (b0 b1 b2 b3 : ℕ) (h0 : b0 ≤ 255) (h1 : b1 ≤ 255)
    (h2 : b2 ≤ 255) (h3 : b3 ≤ 255) :
    le32 (b0 + 256 * b1 + 256 ^ 2 * b2 + 256 ^ 3 * b3) = [b0, b1, b2, b3] := by
  unfold le32
  have e2 : (256 : ℕ) ^ 2 = 65536 := by norm_num
  have e3 : (256 : ℕ) ^ 3 = 16777216 := by norm_num
  rw [e2, e3]
  rw [show b0 + 256 * b1 + 65536 * b2 + 16777216 * b3 = b0 + 256 * b1 + 65536 * b2 +
    16777216 * b3 from rfl]
  rw [show (b0 + 256 * b1 + 65536 * b2 + 16777216 * b3) % 256 = b0 by omega,
    show (b0 + 256 * b1 + 65536 * b2 + 16777216 * b3) / 256 % 256 = b1 by omega,
    show (b0 + 256 * b1 + 65536 * b2 + 16777216 * b3) / 65536 % 256 = b2 by omega,
    show (b0 + 256 * b1 + 65536 * b2 + 16777216 * b3) / 16777216 % 256 = b3 by omega]

theorem ite_xor_zero (P : Prop) [Decidable P] (x e : ℕ) :
    x ^^^ (if P then e else 0) = if P then x ^^^ e else x := by
  split
  · rfl
  · exact Nat.xor_zero x

theorem decode_flipped_timingData (n t i : ℕ) (hn : n < 2 ^ 32) (ht : t < 2 ^ 32)
    (hi : i < 80) :
    decodeTiming (flipByteAt (timingData n t) (i / 8) (i % 8)) = (none, none) := by
  have hlen : (timingData n t).length = 10 := timingData_length n t
  have hg : ∀ k, k < 10 → (flipByteAt (timingData n t) (i / 8) (i % 8)).getD k 0 =
      if k = i / 8 then (timingData n t).getD k 0 ^^^ 2 ^ (i % 8)
      else (timingData n t).getD k 0 :=
    fun k hk => flipByteAt_getD _ _ _ k (by rw [hlen]; omega)
  have g0 : (timingData n t).getD 0 0 = n % 256 := rfl
  have g1 : (timingData n t).getD 1 0 = n / 256 % 256 := rfl
  have g2 : (timingData n t).getD 2 0 = n / 256 ^ 2 % 256 := rfl
  have g3 : (timingData n t).getD 3 0 = n / 256 ^ 3 % 256 := rfl
  have g4 : (timingData n t).getD 4 0 = t % 256 := rfl
  have g5 : (timingData n t).getD 5 0 = t / 256 % 256 := rfl
  have g6 : (timingData n t).getD 6 0 = t / 256 ^ 2 % 256 := rfl
  have g7 : (timingData n t).getD 7 0 = t / 256 ^ 3 % 256 := rfl
  have g8 : (timingData n t).getD 8 0 = crc16Of (le32 n ++ le32 t) % 256 := rfl
  have g9 : (timingData n t).getD 9 0 = crc16Of (le32 n ++ le32 t) / 256 % 256 := rfl
  have e2 : (256 : ℕ) ^ 2 = 65536 := by norm_num
  have e3 : (256 : ℕ) ^ 3 = 16777216 := by norm_num
  have hc16 : crc16Of (le32 n ++ le32 t) ≤ 65535 := Nat.and_le_right
  have hpow : (2 : ℕ) ^ (i % 8) < 256 := by
    have := Nat.pow_lt_pow_right (show 1 < 2 by norm_num) (show i % 8 < 8 by omega)
    omega
  have hpowpos : 0 < (2 : ℕ) ^ (i % 8) := pow_pos (by norm_num) _
  unfold decodeTiming
  rw [hg 0 (by norm_num), hg 1 (by norm_num), hg 2 (by norm_num), hg 3 (by norm_num),
    hg 4 (by norm_num), hg 5 (by norm_num), hg 6 (by norm_num), hg 7 (by norm_num),
    hg 8 (by norm_num), hg 9 (by norm_num)]
  rcases show i / 8 < 8 ∨ i / 8 = 8 ∨ i / 8 = 9 by omega with h8 | h8 | h8
  · -- flip lands in the 8 data bytes: the recomputed crc changes, the stored
    -- one does not
    rw [if_neg (show ¬(8 : ℕ) = i / 8 by omega),
      if_neg (show ¬(9 : ℕ) = i / 8 by omega),
      g0, g1, g2, g3, g4, g5, g6, g7, g8, g9]
    have hcc : crc16Of (le32 n ++ le32 t) % 256 +
        256 * (crc16Of (le32 n ++ le32 t) / 256 % 256) =
        crc16Of (le32 n ++ le32 t) := by omega
    rw [hcc]
    have hDle : ∀ (P : Prop) [Decidable P] (v : ℕ), v ≤ 255 →
        (if P then v ^^^ 2 ^ (i % 8) else v) ≤ 255 := by
      intro P hP v hv
      split
      · have hx : v ^^^ 2 ^ (i % 8) < 2 ^ 8 :=
          Nat.xor_lt_two_pow (show v < 2 ^ 8 by omega) (show 2 ^ (i % 8) < 2 ^ 8 by omega)
        omega
      · exact hv
    rw [le32_of_bytes (if 0 = i / 8 then n % 256 ^^^ 2 ^ (i % 8) else n % 256)
        (if 1 = i / 8 then n / 256 % 256 ^^^ 2 ^ (i % 8) else n / 256 % 256)
        (if 2 = i / 8 then n / 256 ^ 2 % 256 ^^^ 2 ^ (i % 8) else n / 256 ^ 2 % 256)
        (if 3 = i / 8 then n / 256 ^ 3 % 256 ^^^ 2 ^ (i % 8) else n / 256 ^ 3 % 256)
        (hDle (0 = i / 8) (n % 256) (by omega))
        (hDle (1 = i / 8) (n / 256 % 256) (by omega))
        (hDle (2 = i / 8) (n / 256 ^ 2 % 256) (by omega))
        (hDle (3 = i / 8) (n / 256 ^ 3 % 256) (by omega)),
      le32_of_bytes (if 4 = i / 8 then t % 256 ^^^ 2 ^ (i % 8) else t % 256)
        (if 5 = i / 8 then t / 256 % 256 ^^^ 2 ^ (i % 8) else t / 256 % 256)
        (if 6 = i / 8 then t / 256 ^ 2 % 256 ^^^ 2 ^ (i % 8) else t / 256 ^ 2 % 256)
        (if 7 = i / 8 then t / 256 ^ 3 % 256 ^^^ 2 ^ (i % 8) else t / 256 ^ 3 % 256)
        (hDle (4 = i / 8) (t % 256) (by omega))
        (hDle (5 = i / 8) (t / 256 % 256) (by omega))
        (hDle (6 = i / 8) (t / 256 ^ 2 % 256) (by omega))
        (hDle (7 = i / 8) (t / 256 ^ 3 % 256) (by omega))]
    have hzip : List.zipWith (· ^^^ ·) (le32 n ++ le32 t) (errPattern i) =
        [if 0 = i / 8 then n % 256 ^^^ 2 ^ (i % 8) else n % 256,
          if 1 = i / 8 then n / 256 % 256 ^^^ 2 ^ (i % 8) else n / 256 % 256,
          if 2 = i / 8 then n / 256 ^ 2 % 256 ^^^ 2 ^ (i % 8) else n / 256 ^ 2 % 256,
          if 3 = i / 8 then n / 256 ^ 3 % 256 ^^^ 2 ^ (i % 8) else n / 256 ^ 3 % 256,
          if 4 = i / 8 then t % 256 ^^^ 2 ^ (i % 8) else t % 256,
          if 5 = i / 8 then t / 256 % 256 ^^^ 2 ^ (i % 8) else t / 256 % 256,
          if 6 = i / 8 then t / 256 ^ 2 % 256 ^^^ 2 ^ (i % 8) else t / 256 ^ 2 % 256,
          if 7 = i / 8 then t / 256 ^ 3 % 256 ^^^ 2 ^ (i % 8) else t / 256 ^ 3 % 256] := by
      show [n % 256 ^^^ (if 0 = i / 8 then 2 ^ (i % 8) else 0),
          n / 256 % 256 ^^^ (if 1 = i / 8 then 2 ^ (i % 8) else 0),
          n / 256 ^ 2 % 256 ^^^ (if 2 = i / 8 then 2 ^ (i % 8) else 0),
          n / 256 ^ 3 % 256 ^^^ (if 3 = i / 8 then 2 ^ (i % 8) else 0),
          t % 256 ^^^ (if 4 = i / 8 then 2 ^ (i % 8) else 0),
          t / 256 % 256 ^^^ (if 5 = i / 8 then 2 ^ (i % 8) else 0),
          t / 256 ^ 2 % 256 ^^^ (if 6 = i / 8 then 2 ^ (i % 8) else 0),
          t / 256 ^ 3 % 256 ^^^ (if 7 = i / 8 then 2 ^ (i % 8) else 0)] = _
      simp only [ite_xor_zero]
    rw [show ∀ (a0 a1 a2 a3 a4 a5 a6 a7 : ℕ),
        ([a0, a1, a2, a3] ++ [a4, a5, a6, a7] : List ℕ) = [a0, a1, a2, a3, a4, a5, a6, a7]
        from fun _ _ _ _ _ _ _ _ => rfl, ← hzip]
    have hrec : crc16Of (List.zipWith (· ^^^ ·) (le32 n ++ le32 t) (errPattern i)) =
        crc16Of (le32 n ++ le32 t) ^^^ (crc32Aux 0 (errPattern i) &&& 0xFFFF) := by
      unfold crc16Of
      rw [crc32_zip_xor _ _ (by simp [le32, errPattern]), Nat.and_xor_distrib_right]
    rw [hrec, if_neg]
    intro heq
    have hs := syndromes_nonzero i (by omega)
    exact hs ((xor_eq_left_iff _ _).mp heq.symm)
  · -- flip lands in the low checksum byte: stored and recomputed crc differ
    rw [if_neg (show ¬(0 : ℕ) = i / 8 by omega), if_neg (show ¬(1 : ℕ) = i / 8 by omega),
      if_neg (show ¬(2 : ℕ) = i / 8 by omega), if_neg (show ¬(3 : ℕ) = i / 8 by omega),
      if_neg (show ¬(4 : ℕ) = i / 8 by omega), if_neg (show ¬(5 : ℕ) = i / 8 by omega),
      if_neg (show ¬(6 : ℕ) = i / 8 by omega), if_neg (show ¬(7 : ℕ) = i / 8 by omega),
      if_pos (show (8 : ℕ) = i / 8 by omega), if_neg (show ¬(9 : ℕ) = i / 8 by omega),
      g0, g1, g2, g3, g4, g5, g6, g7, g8, g9, e2, e3]
    rw [show n % 256 + 256 * (n / 256 % 256) + 65536 * (n / 65536 % 256) +
        16777216 * (n / 16777216 % 256) = n by omega,
      show t % 256 + 256 * (t / 256 % 256) + 65536 * (t / 65536 % 256) +
        16777216 * (t / 16777216 % 256) = t by omega]
    rw [if_neg]
    intro heq
    have hxlt : crc16Of (le32 n ++ le32 t) % 256 ^^^ 2 ^ (i % 8) < 256 := by
      have hx : crc16Of (le32 n ++ le32 t) % 256 ^^^ 2 ^ (i % 8) < 2 ^ 8 :=
        Nat.xor_lt_two_pow (show crc16Of (le32 n ++ le32 t) % 256 < 2 ^ 8 by omega)
          (show 2 ^ (i % 8) < 2 ^ 8 by omega)
      omega
    have hxe : crc16Of (le32 n ++ le32 t) % 256 ^^^ 2 ^ (i % 8) =
        crc16Of (le32 n ++ le32 t) % 256 := by omega
    have := (xor_eq_left_iff _ _).mp hxe
    omega
  · -- flip lands in the high checksum byte
    rw [if_neg (show ¬(0 : ℕ) = i / 8 by omega), if_neg (show ¬(1 : ℕ) = i / 8 by omega),
      if_neg (show ¬(2 : ℕ) = i / 8 by omega), if_neg (show ¬(3 : ℕ) = i / 8 by omega),
      if_neg (show ¬(4 : ℕ) = i / 8 by omega), if_neg (show ¬(5 : ℕ) = i / 8 by omega),
      if_neg (show ¬(6 : ℕ) = i / 8 by omega), if_neg (show ¬(7 : ℕ) = i / 8 by omega),
      if_neg (show ¬(8 : ℕ) = i / 8 by omega), if_pos (show (9 : ℕ) = i / 8 by omega),
      g0, g1, g2, g3, g4, g5, g6, g7, g8, g9, e2, e3]
    rw [show n % 256 + 256 * (n / 256 % 256) + 65536 * (n / 65536 % 256) +
        16777216 * (n / 16777216 % 256) = n by omega,
      show t % 256 + 256 * (t / 256 % 256) + 65536 * (t / 65536 % 256) +
        16777216 * (t / 16777216 % 256) = t by omega]
    rw [if_neg]
    intro heq
    have hxlt : crc16Of (le32 n ++ le32 t) / 256 % 256 ^^^ 2 ^ (i % 8) < 256 := by
      have hx : crc16Of (le32 n ++ le32 t) / 256 % 256 ^^^ 2 ^ (i % 8) < 2 ^ 8 :=
        Nat.xor_lt_two_pow (show crc16Of (le32 n ++ le32 t) / 256 % 256 < 2 ^ 8 by omega)
          (show 2 ^ (i % 8) < 2 ^ 8 by omega)
      omega
    have hxe : crc16Of (le32 n ++ le32 t) / 256 % 256 ^^^ 2 ^ (i % 8) =
        crc16Of (le32 n ++ le32 t) / 256 % 256 := by omega
    have := (xor_eq_left_iff _ _).mp hxe
    omega

/-- C7.  For every frame carrying a validly embedded 10-byte timing record,
flipping any single bit of the record's embedded 80-bit footprint (bit `i % 2`
of the channel carrying stream slot `i`) makes `extract_timing_data` report a
checksum mismatch and return `(None, None)`: no single-bit flip goes
undetected. -/
theorem c7_single_bit_flip_detected (h w : ℕ) (f : ℕ → ℕ → ℕ → ℕ) (n t i : ℕ)
    (hWF : FrameWF f) (hh : 5 ≤ h) (hcap : 10 ≤ 5 * w * (2 * 3) / 8)
    (hn : n < 2 ^ 32) (ht : t < 2 ^ 32) (hi : i < 80) :
    extractTimingData h w
      (flipEmbeddedBit 0 w i (embedFrameData h w f n t none)) = (none, none) := by
  have hw3 : 3 ≤ w := by omega
  have hmul : ¬h * w = 0 := Nat.mul_ne_zero (by omega) (by omega)
  have hemb : embedFrameData h w f n t none =
      embedDataInRegion 0 5 w (timingData n t) f := by
    unfold embedFrameData embedTimingData
    rw [if_neg hmul, if_neg (by push_neg; exact ⟨hn, ht⟩), if_neg (by omega)]
  rw [hemb]
  have hx := extract_flipped 0 5 w (timingData n t) f hWF (timingData_getD_le n t)
    (by rw [timingData_length]; omega) (by rw [timingData_length]; exact hcap) i
    (by rw [timingData_length]; omega)
  rw [timingData_length] at hx
  unfold extractTimingData
  rw [if_neg (by omega), hx, flipByteAt_length, timingData_length, if_neg (by omega)]
  exact decode_flipped_timingData n t i hn ht hi

/-- Witness for C7: flipping embedded bit 0 of the record in a 5x3 frame. -/
theorem c7_single_bit_flip_detected_witness :
    extractTimingData 5 3
      (flipEmbeddedBit 0 3 0 (embedFrameData 5 3 (fun _ _ _ => 100) 42 1400 none)) =
      (none, none) :=
  c7_single_bit_flip_detected 5 3 (fun _ _ _ => 100) 42 1400 0
    (fun _ _ _ => by norm_num) (by norm_num) (by norm_num) (by norm_num)
    (by norm_num) (by norm_num)
